import Mathlib

/-!
# Verification of the claude-linear-agent session controller

Shallow embedding of the agent session controller of the `linear-beads`
repository (`claude-linear-agent/lib.ts`, `claude-linear-agent/server.ts`,
the agent execution module with `SessionStore`, `sanitizeMentions` and
`runAgent`) together with proofs and refutations of the specification's
testable properties.

Bytes are modelled as `Nat` (values < 256), 32-bit words as `Nat` with
explicit reduction `% 2 ^ 32`.  Strings manipulated character-wise are
modelled as `List Char`.
-/

namespace LinearBeads

/-! ## SHA-256 (FIPS 180-4), as used by Node's `createHmac("sha256", …)`

The controller's `verifySignature` recomputes an HMAC-SHA-256 over the raw
request body.  We embed SHA-256 executably on byte lists. -/

/-- 32-bit truncation. -/
def w32 (x : Nat) : Nat := x % 2 ^ 32

/-- Right rotation of a 32-bit word by `n`. -/
def rotr (n x : Nat) : Nat := w32 ((x >>> n) ||| (x <<< (32 - n)))

/-- Bitwise complement of a 32-bit word. -/
def not32 (x : Nat) : Nat := Nat.xor x 0xffffffff

/-- SHA-256 round constants (FIPS 180-4, section 4.2.2, written in
decimal). -/
def shaK : List Nat :=
  [1116352408, 1899447441, 3049323471, 3921009573, 961987163,
   1508970993, 2453635748, 2870763221, 3624381080, 310598401,
   607225278, 1426881987, 1925078388, 2162078206, 2614888103,
   3248222580, 3835390401, 4022224774, 264347078, 604807628,
   770255983, 1249150122, 1555081692, 1996064986, 2554220882,
   2821834349, 2952996808, 3210313671, 3336571891, 3584528711,
   113926993, 338241895, 666307205, 773529912, 1294757372,
   1396182291, 1695183700, 1986661051, 2177026350, 2456956037,
   2730485921, 2820302411, 3259730800, 3345764771, 3516065817,
   3600352804, 4094571909, 275423344, 430227734, 506948616,
   659060556, 883997877, 958139571, 1322822218, 1537002063,
   1747873779, 1955562222, 2024104815, 2227730452, 2361852424,
   2428436474, 2756734187, 3204031479, 3329325298]

/-- SHA-256 initial hash value (FIPS 180-4, section 5.3.3, in decimal). -/
def shaH0 : List Nat :=
  [1779033703, 3144134277, 1013904242, 2773480762,
   1359893119, 2600822924, 528734635, 1541459225]

/-- Message-schedule sigma-0. -/
def sig0 (x : Nat) : Nat := Nat.xor (Nat.xor (rotr 7 x) (rotr 18 x)) (x >>> 3)

/-- Message-schedule sigma-1. -/
def sig1 (x : Nat) : Nat := Nat.xor (Nat.xor (rotr 17 x) (rotr 19 x)) (x >>> 10)

/-- Extend the 16 chunk words by `n` further schedule words; the accumulator
holds the schedule most-recent-first. -/
def extendSchedule : Nat → List Nat → List Nat
  | 0, acc => acc
  | n + 1, acc =>
    extendSchedule n
      (w32 (sig1 (acc.getD 1 0) + acc.getD 6 0 + sig0 (acc.getD 14 0) + acc.getD 15 0) :: acc)

/-- The 64-word message schedule of one 16-word chunk. -/
def schedule (chunk : List Nat) : List Nat :=
  (extendSchedule 48 chunk.reverse).reverse

/-- One SHA-256 round: state `[a,b,c,d,e,f,g,h]`, round constant `k`,
schedule word `w`. -/
def shaRound (st : List Nat) (kw : Nat × Nat) : List Nat :=
  match st with
  | [a, b, c, d, e, f, g, h] =>
    let s1 := Nat.xor (Nat.xor (rotr 6 e) (rotr 11 e)) (rotr 25 e)
    let ch := Nat.xor (e &&& f) ((not32 e) &&& g)
    let temp1 := w32 (h + s1 + ch + kw.1 + kw.2)
    let s0 := Nat.xor (Nat.xor (rotr 2 a) (rotr 13 a)) (rotr 22 a)
    let maj := Nat.xor (Nat.xor (a &&& b) (a &&& c)) (b &&& c)
    let temp2 := w32 (s0 + maj)
    [w32 (temp1 + temp2), a, b, c, w32 (d + temp1), e, f, g]
  | other => other

/-- Compress one chunk into the running hash value. -/
def compress (h : List Nat) (chunk : List Nat) : List Nat :=
  let final := ((shaK.zip (schedule chunk)).foldl shaRound h)
  (h.zip final).map fun p => w32 (p.1 + p.2)

/-- Big-endian bytes to 32-bit words, 4 bytes per word. -/
def bytesToWords : List Nat → List Nat
  | b0 :: b1 :: b2 :: b3 :: rest =>
    (((b0 * 256 + b1) * 256 + b2) * 256 + b3) :: bytesToWords rest
  | _ => []

/-- A 32-bit word as 4 big-endian bytes. -/
def wordToBytes (x : Nat) : List Nat :=
  [x / 2 ^ 24 % 256, x / 2 ^ 16 % 256, x / 2 ^ 8 % 256, x % 256]

/-- Split a list into chunks of 16 words (structural recursion on a fuel
bound so the kernel can evaluate it). -/
def chunks16Aux : Nat → List Nat → List (List Nat)
  | 0, _ => []
  | _, [] => []
  | fuel + 1, x :: l => (x :: l).take 16 :: chunks16Aux fuel ((x :: l).drop 16)

/-- Split a list into chunks of 16 words. -/
def chunks16 (l : List Nat) : List (List Nat) := chunks16Aux l.length l

/-- SHA-256 padding: append `0x80`, zeros, and the 64-bit big-endian bit
length, reaching a multiple of 64 bytes. -/
def shaPad (msg : List Nat) : List Nat :=
  let len := msg.length
  let zeros := (64 - (len + 9) % 64) % 64
  let bitLen := len * 8
  msg ++ 0x80 :: List.replicate zeros 0 ++
    [bitLen / 2 ^ 56 % 256, bitLen / 2 ^ 48 % 256, bitLen / 2 ^ 40 % 256,
     bitLen / 2 ^ 32 % 256, bitLen / 2 ^ 24 % 256, bitLen / 2 ^ 16 % 256,
     bitLen / 2 ^ 8 % 256, bitLen % 256]

/-- SHA-256 digest of a byte list, as 32 bytes. -/
def sha256 (msg : List Nat) : List Nat :=
  ((chunks16 (bytesToWords (shaPad msg))).foldl compress shaH0).flatMap wordToBytes

/-! ## HMAC-SHA-256 as computed by `createHmac("sha256", secret)` -/

/-- HMAC key normalization: hash keys longer than the 64-byte block, then
zero-pad to 64 bytes. -/
def hmacKey (key : List Nat) : List Nat :=
  let k := if 64 < key.length then sha256 key else key
  k ++ List.replicate (64 - k.length) 0

/-- HMAC-SHA-256 of `msg` under `key`, as 32 raw digest bytes. -/
def hmacSha256 (key msg : List Nat) : List Nat :=
  let k := hmacKey key
  sha256 (k.map (Nat.xor 0x5c) ++ sha256 (k.map (Nat.xor 0x36) ++ msg))

/-- One lowercase hex digit, as its ASCII byte. -/
def hexDigit (n : Nat) : Nat := if n < 10 then 48 + n else 87 + n

/-- Lowercase hex encoding of a byte list, as the ASCII bytes of the hex
string (this is `hmac.digest("hex")`). -/
def hexBytes (bs : List Nat) : List Nat :=
  bs.flatMap fun b => [hexDigit (b / 16), hexDigit (b % 16)]

/-- The expected signature string `createHmac("sha256", secret).update(body)
.digest("hex")`, as its ASCII bytes. -/
def hexHmac (secret body : List Nat) : List Nat := hexBytes (hmacSha256 secret body)

/-! ## `verifySignature` (lib.ts)

The body, the claimed signature header and the secret are byte lists (the
UTF-8 bytes of the corresponding JS strings; UTF-8 is injective, so byte
equality is string equality).  `timingSafeEqual` throws on length mismatch;
the surrounding `try`/`catch` turns that into `false`. -/

/-- `timingSafeEqual(Buffer.from(a), Buffer.from(b))` wrapped in the
source's `try`/`catch`: equal-length buffers are compared byte-wise, a
length mismatch throws and the catch yields `false`. -/
def timingSafeEqualCaught (a b : List Nat) : Bool :=
  if a.length = b.length then a == b else false

/-- `verifySignature(body, signature, secret)`: missing (`none`) or empty
signature is rejected up front (`if (!signature) return false`), otherwise
the claimed signature is compared against the hex HMAC-SHA-256 digest. -/
def verifySignature (body : List Nat) (signature : Option (List Nat)) (secret : List Nat) :
    Bool :=
  match signature with
  | none => false
  | some sig =>
    if sig.isEmpty then false
    else timingSafeEqualCaught sig (hexHmac secret body)

/-! ## Webhook payload model (lib.ts types, fields the logic reads) -/

/-- `session.creator` (expanded user object); only `id` is read. -/
structure CreatorData where
  id : String
deriving DecidableEq

/-- `session.issue` (expanded issue object). -/
structure IssueData where
  id : String
  identifier : String
  title : String
  description : Option String := none
deriving DecidableEq

/-- `session.comment`. -/
structure CommentData where
  id : String
  body : String
deriving DecidableEq

/-- `AgentSessionData`: the fields the controller logic reads. -/
structure AgentSessionData where
  id : String
  issueId : String
  creatorId : Option String := none
  appUserId : Option String := none
  issue : Option IssueData := none
  comment : Option CommentData := none
  creator : Option CreatorData := none
deriving DecidableEq

/-- `AgentActivityContent` nested inside an agent activity. -/
structure AgentActivityContent where
  type : String
  body : Option String := none
deriving DecidableEq

/-- `AgentActivityData` (for prompted events); `content` is typed as
required but read through `?.`, so it is optional here. -/
structure AgentActivityData where
  id : String
  signal : Option String := none
  content : Option AgentActivityContent := none
deriving DecidableEq

/-- `payload.data` for ProjectUpdate / Comment webhooks: the fields read by
the mention and self-trigger helpers. -/
structure GenericEventData where
  id : String
  body : Option String := none
  userId : Option String := none
  projectUpdateId : Option String := none
  projectUpdateBody : Option String := none
deriving DecidableEq

/-- `LinearWebhookPayload`: the fields the controller logic reads. -/
structure LinearWebhookPayload where
  action : String
  type : String
  appUserId : Option String := none
  agentSession : Option AgentSessionData := none
  agentActivity : Option AgentActivityData := none
  promptContext : Option String := none
  data : Option GenericEventData := none
deriving DecidableEq

/-- JS truthiness of a possibly-absent string: `undefined`, `null` and the
empty string are falsy. -/
def jsTruthy : Option String → Bool
  | none => false
  | some s => !s.isEmpty

/-- JS `a || b` on possibly-absent strings. -/
def jsOr (a b : Option String) : Option String := if jsTruthy a then a else b

/-- `isAgentSessionCreated`. -/
def isAgentSessionCreated (p : LinearWebhookPayload) : Bool :=
  p.type == "AgentSessionEvent" && p.action == "created"

/-- `isAgentSessionPrompted`. -/
def isAgentSessionPrompted (p : LinearWebhookPayload) : Bool :=
  p.type == "AgentSessionEvent" && p.action == "prompted"

/-- `getPromptedMessage`: `payload.agentActivity?.content?.body || null`. -/
def getPromptedMessage (p : LinearWebhookPayload) : Option String :=
  let b := (p.agentActivity.bind (·.content)).bind (·.body)
  if jsTruthy b then b else none

/-- `isStopSignal`: `payload.agentActivity?.signal === "stop"`. -/
def isStopSignal (p : LinearWebhookPayload) : Bool :=
  (p.agentActivity.bind (·.signal)) == some "stop"

/-- `isSelfTrigger`: compare `session.creatorId || session.creator?.id`
against `payload.appUserId || session.appUserId`; any falsy side gives
`false`. -/
def isSelfTrigger (p : LinearWebhookPayload) : Bool :=
  match p.agentSession with
  | none => false
  | some session =>
    let creatorId := jsOr session.creatorId (session.creator.map (·.id))
    let ourAgentId := jsOr p.appUserId session.appUserId
    if !jsTruthy creatorId || !jsTruthy ourAgentId then false
    else creatorId == ourAgentId

/-- ASCII lowercase comparison target of the mention token after `@`. -/
def claudeChars : List Char := ['c', 'l', 'a', 'u', 'd', 'e']

/-- Does the list start with `@claude`, letters case-insensitive (the
leading alternative of the `/@claude/gi` and `/@claude/i` regexes)? -/
def atClaudeHead : List Char → Bool
  | c :: rest => c == '@' && ((rest.take 6).map Char.toLower == claudeChars)
  | [] => false

/-- `/@claude/i.test(s)`: case-insensitive substring containment. -/
def containsAtClaude : List Char → Bool
  | [] => false
  | c :: rest => atClaudeHead (c :: rest) || containsAtClaude rest

/-- `isProjectUpdateMention`: type `ProjectUpdate`, action `create`, and
`/@claude/i` matches `(payload.data?.body as string) || ""`. -/
def isProjectUpdateMention (p : LinearWebhookPayload) : Bool :=
  p.type == "ProjectUpdate" && p.action == "create" &&
    containsAtClaude ((jsOr (p.data.bind (·.body)) (some "")).getD "").data

/-- `isProjectUpdateSelfTrigger`: `data.userId === payload.appUserId` when
`data` is present. -/
def isProjectUpdateSelfTrigger (p : LinearWebhookPayload) : Bool :=
  match p.data with
  | none => false
  | some d => d.userId == p.appUserId

/-- Modelled from the spec: the repository's `isProjectUpdateCommentForClaude`
definition is not under the provided sources (only `server.ts` and its tests
reference it).  Per the spec's classifier (`ThreadReply`: "separate event type
for update-thread comments; mention detection is a case-insensitive substring
match for the agent's mention token in the body text") and the unit tests, it
requires a `Comment`-typed `create` webhook whose data carries a
`projectUpdateId` and whose parent project update body mentions the agent. -/
def isProjectUpdateCommentForClaude (p : LinearWebhookPayload) : Bool :=
  p.type == "Comment" && p.action == "create" &&
    jsTruthy (p.data.bind (·.projectUpdateId)) &&
    containsAtClaude ((jsOr (p.data.bind (·.projectUpdateBody)) (some "")).getD "").data

/-- Modelled from the spec: counterpart of `isProjectUpdateSelfTrigger` for
update-thread comments — the comment author id compared against the
controller's app user id. -/
def isProjectUpdateCommentSelfTrigger (p : LinearWebhookPayload) : Bool :=
  match p.data with
  | none => false
  | some d => d.userId == p.appUserId

/-! ## Clarification marker handling (lib.ts) -/

/-- `CLARIFICATION_MARKER`. -/
def CLARIFICATION_MARKER : List Char := "[NEEDS_CLARIFICATION]".data

/-- The JS whitespace set of `String.prototype.trim` (WhiteSpace ∪
LineTerminator), by code point. -/
def jsWhitespace (c : Char) : Bool :=
  c.toNat ∈ [9, 10, 11, 12, 13, 32, 160, 0x1680,
    0x2000, 0x2001, 0x2002, 0x2003, 0x2004, 0x2005, 0x2006, 0x2007,
    0x2008, 0x2009, 0x200a, 0x2028, 0x2029, 0x202f, 0x205f, 0x3000, 0xfeff]

/-- JS `s.trim()`. -/
def jsTrim (l : List Char) : List Char :=
  ((l.dropWhile jsWhitespace).reverse.dropWhile jsWhitespace).reverse

/-- `text.indexOf(marker)`: position of the first occurrence of `needle`
in `hay`, scanning left to right. -/
def indexOfSub (needle : List Char) : List Char → Option Nat
  | [] => if needle.isEmpty then some 0 else none
  | c :: rest =>
    if needle.isPrefixOf (c :: rest) then some 0
    else (indexOfSub needle rest).map (· + 1)

/-- Result record of `parseForClarification`. -/
structure ClarificationResult where
  needsClarification : Bool
  cleanedText : List Char
deriving DecidableEq

/-- `parseForClarification`: split around the first marker occurrence,
trim both sides, rejoin with a blank line when a preamble exists. -/
def parseForClarification (text : List Char) : ClarificationResult :=
  match indexOfSub CLARIFICATION_MARKER text with
  | some markerIndex =>
    let preamble := jsTrim (text.take markerIndex)
    let afterMarker := jsTrim (text.drop (markerIndex + CLARIFICATION_MARKER.length))
    let cleanedText :=
      if preamble.isEmpty then afterMarker
      else preamble ++ '\n' :: '\n' :: afterMarker
    ⟨true, cleanedText⟩
  | none => ⟨false, text⟩

/-! ## `sanitizeMentions` (agent execution module)

`text.replace(/@claude/gi, "Claude").replace(/@(\w+)/g, "$1")`: the first
pass rewrites every (non-overlapping, left-to-right) case-insensitive
occurrence of the mention token to `Claude`; the second strips the `@` off
every `@`-plus-word-characters run. -/

/-- JS `\w`: ASCII letters, digits and underscore. -/
def wordChar (c : Char) : Bool := c.isAlphanum || c == '_'

/-- Does the list start with a word character? -/
def headWord : List Char → Bool
  | d :: _ => wordChar d
  | [] => false

/-- First pass, structural on a fuel bound (so the kernel can evaluate it);
`replClaude` below instantiates the fuel with the list length, which the
fuel-irrelevance lemma shows is always enough. -/
def replClaudeAux : Nat → List Char → List Char
  | _, [] => []
  | 0, l => l
  | fuel + 1, c :: rest =>
    if atClaudeHead (c :: rest) then
      'C' :: 'l' :: 'a' :: 'u' :: 'd' :: 'e' :: replClaudeAux fuel (rest.drop 6)
    else c :: replClaudeAux fuel rest

/-- First pass: `replace(/@claude/gi, "Claude")`: rewrite every
non-overlapping, left-to-right, case-insensitive occurrence. -/
def replClaude (l : List Char) : List Char := replClaudeAux l.length l

/-- Second pass, structural on a fuel bound. -/
def stripAtWordAux : Nat → List Char → List Char
  | _, [] => []
  | 0, l => l
  | fuel + 1, c :: rest =>
    if c == '@' && headWord rest then
      rest.takeWhile wordChar ++ stripAtWordAux fuel (rest.dropWhile wordChar)
    else c :: stripAtWordAux fuel rest

/-- Second pass: `replace(/@(\w+)/g, "$1")` — each `@` directly followed by
a word character is deleted (the captured word is kept), scanning left to
right over non-overlapping matches. -/
def stripAtWord (l : List Char) : List Char := stripAtWordAux l.length l

/-- `sanitizeMentions`. -/
def sanitizeMentions (l : List Char) : List Char := stripAtWord (replClaude l)

/-- Does the list start with `@`? -/
def headAt : List Char → Bool
  | c :: _ => c == '@'
  | [] => false

/-- Does the text contain an `@` immediately followed by a word character
(the shape that re-triggers a mention)? -/
def hasAtWord : List Char → Bool
  | [] => false
  | c :: rest => (c == '@' && headWord rest) || hasAtWord rest

/-- Does the text contain two adjacent `@` characters? -/
def hasAdjAt : List Char → Bool
  | [] => false
  | c :: rest => (c == '@' && headAt rest) || hasAdjAt rest

/-! ## Resumption store (`SessionStore`)

A JS object mapping Linear session ids to Claude conversation ids, cached
in memory and persisted as one JSON file (written to a temp path and
atomically renamed).  The file is modelled as the persisted mapping itself:
`JSON.stringify`/`JSON.parse` round-trip a string-to-string record, so a
file written by `write` always reloads to the same mapping.  A JS object
has unique keys and preserves insertion order; `storeSet` updates in place
or appends, `storeErase` drops the key. -/

/-- The flat mapping held in memory / on disk. -/
abbrev StoreMap := List (String × String)

/-- Key lookup in a mapping. -/
def storeLookup (k : String) : StoreMap → Option String
  | [] => none
  | (k', v) :: rest => if k' = k then some v else storeLookup k rest

/-- `data[k] = v`: overwrite in place if the key exists, append otherwise. -/
def storeSet (k v : String) (l : StoreMap) : StoreMap :=
  if (storeLookup k l).isSome then
    l.map fun e => if e.1 = k then (k, v) else e
  else l ++ [(k, v)]

/-- `delete data[k]`. -/
def storeErase (k : String) (l : StoreMap) : StoreMap :=
  l.filter fun e => !(e.1 = k)

/-- The in-memory side of a `SessionStore` instance: `cache` is `none`
until the first access (`private cache: Record<string,string> | null`). -/
structure SessionStoreState where
  cache : Option StoreMap
deriving DecidableEq

/-- The durable side: `none` models an absent file, `some m` a file holding
the serialized mapping `m`. -/
structure DiskFile where
  contents : Option StoreMap
deriving DecidableEq

/-- A freshly constructed store instance (as after a process restart). -/
def freshStore : SessionStoreState := ⟨none⟩

/-- `load()`: return the cache if populated, otherwise read the file
(absent file loads as the empty mapping) and cache the result. -/
def SessionStoreState.load : SessionStoreState → DiskFile → StoreMap × SessionStoreState
  | ⟨some c⟩, _ => (c, ⟨some c⟩)
  | ⟨none⟩, ⟨none⟩ => ([], ⟨some []⟩)
  | ⟨none⟩, ⟨some data⟩ => (data, ⟨some data⟩)

/-- `get(linearSessionId)`. -/
def SessionStoreState.get (st : SessionStoreState) (fs : DiskFile) (sid : String) :
    Option String × SessionStoreState :=
  let (data, st') := st.load fs
  (storeLookup sid data, st')

/-- `set(linearSessionId, claudeSessionId)`: mutate the loaded mapping and
persist it (temp file + atomic rename). -/
def SessionStoreState.set (st : SessionStoreState) (fs : DiskFile) (sid cid : String) :
    SessionStoreState × DiskFile :=
  let (data, _) := st.load fs
  let data' := storeSet sid cid data
  (⟨some data'⟩, ⟨some data'⟩)

/-- `delete(linearSessionId)`: remove and persist only when the key was
present. -/
def SessionStoreState.del (st : SessionStoreState) (fs : DiskFile) (sid : String) :
    SessionStoreState × DiskFile :=
  let (data, st') := st.load fs
  if (storeLookup sid data).isSome then
    let data' := storeErase sid data
    (⟨some data'⟩, ⟨some data'⟩)
  else (st', fs)

/-! ## Session registry (server.ts `processedSessions`)

A `Map<string, number>` from dedup key to the `Date.now()` timestamp at
which it was recorded, modelled as an insertion-ordered association list.
`Date.now()` values are milliseconds since the epoch, in particular
strictly positive; JS number subtraction on them is modelled by truncated
`Nat` subtraction, which agrees with both comparisons used (`now - ts`
negative in JS makes `now - ts < TTL` true and `now - ts > TTL` false,
exactly like the truncated `0`). -/

/-- `SESSION_TTL_MS`. -/
def SESSION_TTL_MS : Nat := 60 * 60 * 1000

/-- `MAX_SESSIONS`. -/
def MAX_SESSIONS : Nat := 1000

/-- The registry: dedup key ↦ recording timestamp. -/
abbrev Registry := List (String × Nat)

/-- `processedSessions.get(k)`. -/
def regLookup (k : String) : Registry → Option Nat
  | [] => none
  | (k', t) :: rest => if k' = k then some t else regLookup k rest

/-- `processedSessions.set(k, t)`: overwrite in place or append. -/
def regSet (k : String) (t : Nat) (l : Registry) : Registry :=
  if (regLookup k l).isSome then
    l.map fun e => if e.1 = k then (k, t) else e
  else l ++ [(k, t)]

/-- `isSessionProcessed`: the stored timestamp must be truthy (nonzero) and
younger than the TTL. -/
def isSessionProcessed (sessionId : String) (now : Nat) (reg : Registry) : Bool :=
  match regLookup sessionId reg with
  | some ts => decide (ts ≠ 0) && decide (now - ts < SESSION_TTL_MS)
  | none => false

/-- The cleanup sweep inside `markSessionProcessed`: iterate over a
snapshot of the entries and delete every expired one. -/
def sweepExpired (now : Nat) (reg : Registry) : Registry :=
  reg.filter fun e => !decide (SESSION_TTL_MS < now - e.2)

/-- `markSessionProcessed`: sweep expired entries when at capacity, then
record the key at the current time. -/
def markSessionProcessed (sessionId : String) (now : Nat) (reg : Registry) : Registry :=
  regSet sessionId now
    (if MAX_SESSIONS ≤ reg.length then sweepExpired now reg else reg)

/-! ## Webhook endpoint (server.ts `app.post("/webhook")`)

The handler after signature verification and JSON parsing succeeded (the
claims all speak about verified payloads).  Its synchronous effects are
returned explicitly: the HTTP response, the mutated module state, the
`runAgent` invocations handed to the background, the activities emitted
synchronously, the `abort()` calls, and the project-update handler calls. -/

/-- Activity content posted through `emitActivity` (lib.ts
`ActivityContent`). -/
structure ActivityContent where
  type : String
  body : Option String := none
  action : Option String := none
  parameter : Option String := none
deriving DecidableEq

/-- One background `runAgent(session, promptContext, userMessage, ac)`
invocation. -/
structure RunInvocation where
  session : AgentSessionData
  promptContext : Option String
  userMessage : Option String
deriving DecidableEq

/-- The JSON body of the HTTP response (`401` never reaches this model:
the payloads considered are verified). -/
inductive WebhookResponse
  | okPlain
  | okSkipped (reason : String)
  | okStop (cancelled : Bool)
  | errNoSession
  | errNoMessage
deriving DecidableEq

/-- The module-level mutable state of server.ts: `processedSessions` and
the key set of `runningAgents` (session id ↦ live `AbortController`). -/
structure ServerState where
  processedSessions : Registry
  runningAgents : List String
deriving DecidableEq

/-- Everything one request does. -/
structure HandlerOutput where
  response : WebhookResponse
  state : ServerState
  invocations : List RunInvocation
  activities : List ActivityContent
  aborted : List String
  projectRuns : List String
deriving DecidableEq

/-- `runningAgents.set(id, ac)` as a key-set update. -/
def setAdd (id : String) (l : List String) : List String :=
  if id ∈ l then l else l ++ [id]

/-- The activity body acknowledging a stop. -/
def stopAckBody : String := "Agent stopped by user request."

/-- The prompted-event dedup key:
`` `${session.id}:${payload.agentActivity?.id || "unknown"}` ``. -/
def promptedDedupeKey (sessionId : String) (activity : Option AgentActivityData) : String :=
  sessionId ++ ":" ++
    (match activity with
     | some a => if a.id = "" then "unknown" else a.id
     | none => "unknown")

/-- The webhook handler.  `now` is `Date.now()` during this request (the
request runs synchronously up to its response, so one timestamp stands for
the cleanup comparison and the recording). -/
def handleWebhook (st : ServerState) (now : Nat) (p : LinearWebhookPayload) : HandlerOutput :=
  if isAgentSessionCreated p then
    match p.agentSession with
    | none => ⟨.errNoSession, st, [], [], [], []⟩
    | some session =>
      if isSessionProcessed session.id now st.processedSessions then
        ⟨.okSkipped "duplicate", st, [], [], [], []⟩
      else if isSelfTrigger p then
        ⟨.okSkipped "self-trigger", st, [], [], [], []⟩
      else
        ⟨.okPlain,
         ⟨markSessionProcessed session.id now st.processedSessions,
          setAdd session.id st.runningAgents⟩,
         [⟨session, p.promptContext, none⟩], [], [], []⟩
  else if isAgentSessionPrompted p then
    match p.agentSession with
    | none => ⟨.errNoSession, st, [], [], [], []⟩
    | some session =>
      if isStopSignal p then
        if session.id ∈ st.runningAgents then
          ⟨.okStop true,
           ⟨st.processedSessions, st.runningAgents.erase session.id⟩,
           [], [⟨"response", some stopAckBody, none, none⟩], [session.id], []⟩
        else ⟨.okStop false, st, [], [], [], []⟩
      else
        match getPromptedMessage p with
        | none => ⟨.errNoMessage, st, [], [], [], []⟩
        | some userMessage =>
          let dedupeKey := promptedDedupeKey session.id p.agentActivity
          if isSessionProcessed dedupeKey now st.processedSessions then
            ⟨.okSkipped "duplicate", st, [], [], [], []⟩
          else
            ⟨.okPlain,
             ⟨markSessionProcessed dedupeKey now st.processedSessions,
              setAdd session.id st.runningAgents⟩,
             [⟨session, p.promptContext, some userMessage⟩], [], [], []⟩
  else if isProjectUpdateMention p then
    let d := (p.data.getD ⟨"", none, none, none, none⟩)
    if isSessionProcessed d.id now st.processedSessions then
      ⟨.okSkipped "duplicate", st, [], [], [], []⟩
    else if isProjectUpdateSelfTrigger p then
      ⟨.okSkipped "self-trigger", st, [], [], [], []⟩
    else
      ⟨.okPlain,
       ⟨markSessionProcessed d.id now st.processedSessions, st.runningAgents⟩,
       [], [], [], [d.id]⟩
  else if isProjectUpdateCommentForClaude p then
    let d := (p.data.getD ⟨"", none, none, none, none⟩)
    if isSessionProcessed d.id now st.processedSessions then
      ⟨.okSkipped "duplicate", st, [], [], [], []⟩
    else if isProjectUpdateCommentSelfTrigger p then
      ⟨.okSkipped "self-trigger", st, [], [], [], []⟩
    else
      ⟨.okPlain,
       ⟨markSessionProcessed d.id now st.processedSessions, st.runningAgents⟩,
       [], [], [], [d.id]⟩
  else ⟨.okPlain, st, [], [], [], []⟩

/-! ## Agent execution (`runAgent` in the agent module)

`runAgent` consumes the SDK's message stream and emits activities; it is
modelled as a fold over the stream.  The parts with no observable effect on
activities or the resumption store — the resolved working directory, the
composed prompt, logging — are not represented.  Strings are compared and
sliced by code point (`.data`); the claims never involve surrogate pairs,
where JS `slice` counts UTF-16 units instead. -/

/-- JS `s.slice(0, n)`. -/
def jsSliceTo (n : Nat) (s : String) : String := ⟨s.data.take n⟩

/-- JS `s.slice(-n)`: the last `n` characters. -/
def jsSliceLast (n : Nat) (s : String) : String := ⟨s.data.reverse.take n |>.reverse⟩

/-- JS `s.replace(/\n/g, " ")`. -/
def replaceNewlines (s : String) : String :=
  ⟨s.data.map fun c => if c == '\n' then ' ' else c⟩

/-- A tool-use input object: the fields the switch reads, plus its
`JSON.stringify` rendering for the default branch. -/
structure ToolInput where
  file_path : Option String := none
  pattern : Option String := none
  command : Option String := none
  json : String := ""
deriving DecidableEq

/-- One content block of an assistant message. -/
inductive ContentBlock
  | text (text : String)
  | toolUse (id : String) (name : String) (input : ToolInput)
deriving DecidableEq

/-- `message.tool_use_result` on a user message. -/
structure ToolUseResult where
  output : Option String := none
  error : Option String := none
deriving DecidableEq

/-- The message kinds the loop distinguishes.  `totalCostUsd` is a JS
float used only for display; it is carried as its `toFixed(4)` rendering,
`none` when absent. -/
inductive AgentMessageBody
  | assistant (content : List ContentBlock)
  | user (toolUseResult : Option ToolUseResult)
  | result (subtype : String) (numTurns : Option Nat) (totalCostUsd : Option String)
  | other
deriving DecidableEq

/-- A streamed SDK message: an optional `session_id` field plus its body. -/
structure AgentMessage where
  sessionId : Option String := none
  body : AgentMessageBody
deriving DecidableEq

/-- The loop's accumulator: the mutable locals of `runAgent`, the
resumption store contents, and the activities emitted so far (in order). -/
structure RunState where
  responseText : String
  turnCount : Nat
  toolsUsed : List String
  filesAccessed : List String
  lastToolUseId : Option String
  claudeSessionCaptured : Bool
  store : StoreMap
  activities : List ActivityContent
deriving DecidableEq

/-- Append one emitted activity. -/
def RunState.emit (st : RunState) (a : ActivityContent) : RunState :=
  { st with activities := st.activities ++ [a] }

/-- The tool-use switch: `(parameter, contextInfo)` for a tool name and
input. -/
def toolContext (name : String) (input : ToolInput) : String × String :=
  if name == "Read" then
    let parameter := jsSliceLast 60 ((jsOr input.file_path (some "")).getD "")
    (parameter, "Reading " ++ parameter)
  else if name == "Write" || name == "Edit" then
    let parameter := jsSliceLast 60 ((jsOr input.file_path (some "")).getD "")
    (parameter, (if name == "Write" then "Writing " else "Editing ") ++ parameter)
  else if name == "Glob" then
    let parameter := (jsOr input.pattern (some "")).getD ""
    (parameter, "Searching for files: " ++ parameter)
  else if name == "Grep" then
    let parameter := jsSliceTo 40 ((jsOr input.pattern (some "")).getD "")
    (parameter, "Searching content: \"" ++ parameter ++ "\"")
  else if name == "Bash" then
    let parameter := jsSliceTo 60 ((jsOr input.command (some "")).getD "")
    (parameter, "Running: " ++ parameter)
  else
    let parameter := jsSliceTo 80 input.json
    (parameter, name ++ ": " ++ parameter)

/-- Whether the switch records the parameter in `filesAccessed`
(Read/Write/Edit, nonempty, not yet recorded). -/
def tracksFile (name : String) : Bool :=
  name == "Read" || name == "Write" || name == "Edit"

/-- Process one content block of an assistant message. -/
def processBlock (st : RunState) (b : ContentBlock) : RunState :=
  match b with
  | .text text =>
    let st := { st with responseText := text }
    if 100 < text.length then
      st.emit ⟨"thought", some ((replaceNewlines (jsSliceTo 150 text)) ++ "..."), none, none⟩
    else st
  | .toolUse id name input =>
    let st := { st with
      lastToolUseId := some id
      turnCount := st.turnCount + 1
      toolsUsed := if name ∈ st.toolsUsed then st.toolsUsed else st.toolsUsed ++ [name] }
    let pc := toolContext name input
    let st :=
      if tracksFile name && !pc.1.isEmpty && !(pc.1 ∈ st.filesAccessed) then
        { st with filesAccessed := st.filesAccessed ++ [pc.1] }
      else st
    st.emit ⟨"action", none, some name, some pc.2⟩

/-- The `subtype === "success"` guard and the summary statistics. -/
def summaryBody (turns : Nat) (tools : List String) (files : Nat) (cost : Option String) :
    String :=
  let parts := ["Completed in " ++ toString turns ++ " steps"]
  let parts := if tools.isEmpty then parts else parts ++ ["used " ++ String.intercalate ", " tools]
  let parts :=
    if 0 < files then
      parts ++ ["touched " ++ toString files ++ " file" ++ (if 1 < files then "s" else "")]
    else parts
  let parts := match cost with
    | some c => parts ++ ["cost: $" ++ c]
    | none => parts
  "📊 " ++ String.intercalate " | " parts

/-- The session-id capture at the top of the `for await` loop body: on the
first message carrying a truthy `session_id`, record it in the resumption
store. -/
def captureSession (linearSessionId : String) (st : RunState) (m : AgentMessage) : RunState :=
  if !st.claudeSessionCaptured && jsTruthy m.sessionId then
    { st with
      store := storeSet linearSessionId (m.sessionId.getD "") st.store
      claudeSessionCaptured := true }
  else st

/-- Process one streamed message (the body of the `for await` loop):
session-id capture, then the `message.type` switch. -/
def processMessage (linearSessionId : String) (st : RunState) (m : AgentMessage) : RunState :=
  let st := captureSession linearSessionId st m
  match m.body with
  | .assistant content => content.foldl processBlock st
  | .user toolUseResult =>
    match toolUseResult, st.lastToolUseId with
    | some tr, some _ =>
      let isError := jsTruthy tr.error
      let resultText := (jsOr tr.error (jsOr tr.output (some ""))).getD ""
      let st :=
        if resultText.isEmpty then st
        else
          let preview := replaceNewlines (jsSliceTo 200 resultText)
          let resultSummary :=
            if isError then "Error: " ++ preview
            else if 150 < preview.length then jsSliceTo 150 preview ++ "..."
            else preview
          st.emit ⟨"thought",
            some ((if isError then "❌ " else "✓ ") ++ resultSummary), none, none⟩
      { st with lastToolUseId := none }
    | _, _ => st
  | .result subtype numTurns totalCostUsd =>
    let turnsOpt := if subtype == "success" then numTurns else some st.turnCount
    let costOpt := if subtype == "success" then totalCostUsd else none
    match turnsOpt with
    | some t =>
      if 1 < t then
        st.emit ⟨"thought",
          some (summaryBody t st.toolsUsed st.filesAccessed.length
            (if jsTruthy costOpt then costOpt else none)), none, none⟩
      else st
    | none => st
  | .other => st

/-- The fixed fallback final response. -/
def fallbackResponse : String :=
  "I looked into this but couldn't formulate a response. Please try rephrasing your request."

/-- The final emission after the stream ends: clarification check, mention
sanitization, length cap, and one retry when the first attempt failed
(`firstEmitOk = false`). -/
def finishRun (firstEmitOk : Bool) (st : RunState) : RunState :=
  if !st.responseText.isEmpty then
    let r := parseForClarification st.responseText.data
    let activityType := if r.needsClarification then "elicitation" else "response"
    let sanitized : String := ⟨sanitizeMentions (r.cleanedText.take 2000)⟩
    let st := st.emit ⟨activityType, some sanitized, none, none⟩
    if firstEmitOk then st
    else st.emit ⟨activityType, some sanitized, none, none⟩
  else st.emit ⟨"response", some fallbackResponse, none, none⟩

/-- The arguments `runAgent` receives from the webhook handler. -/
structure RunInput where
  session : AgentSessionData
  promptContext : Option String := none
  userMessage : Option String := none
deriving DecidableEq

/-- The immediate acknowledgement activity emitted before anything else. -/
def initialThought (inp : RunInput) (issue : IssueData) : ActivityContent :=
  ⟨"thought",
   some (if jsTruthy inp.userMessage then "Processing follow-up message..."
         else "Analyzing issue " ++ issue.identifier ++ "..."), none, none⟩

/-- `existingClaudeSessionId`: looked up before the run, only for truthy
follow-up messages. -/
def existingClaudeSessionId (inp : RunInput) (store0 : StoreMap) : Option String :=
  if jsTruthy inp.userMessage then storeLookup inp.session.id store0 else none

/-- The starting `RunState` (after the initial acknowledgement). -/
def initRunState (inp : RunInput) (issue : IssueData) (store0 : StoreMap) : RunState :=
  ⟨"", 0, [], [], none, false, store0, [initialThought inp issue]⟩

/-- A whole successful `runAgent` execution: early return when the session
carries no issue data, otherwise initial acknowledgement, the stream loop,
and the final emission. -/
def runAgentModel (inp : RunInput) (store0 : StoreMap) (stream : List AgentMessage)
    (firstEmitOk : Bool) : RunState :=
  match inp.session.issue with
  | none => ⟨"", 0, [], [], none, false, store0, []⟩
  | some issue =>
    finishRun firstEmitOk
      (stream.foldl (processMessage inp.session.id) (initRunState inp issue store0))

/-- A `runAgent` execution whose `try` block throws after `k` streamed
messages (any uncaught error while streaming): the catch deletes the
resumption entry only when this run was resuming
(`if (existingClaudeSessionId)`), then emits a sanitized error activity.
Errors thrown before the `try` (the initial acknowledgement or repository
resolution) propagate to the caller's logging `.catch` and perform none of
these effects. -/
def runAgentFailedModel (inp : RunInput) (store0 : StoreMap) (stream : List AgentMessage)
    (k : Nat) (errMsg : String) : RunState :=
  match inp.session.issue with
  | none => ⟨"", 0, [], [], none, false, store0, []⟩
  | some issue =>
    let st := (stream.take k).foldl (processMessage inp.session.id)
      (initRunState inp issue store0)
    let st :=
      if jsTruthy (existingClaudeSessionId inp store0) then
        { st with store := storeErase inp.session.id st.store }
      else st
    st.emit ⟨"error",
      some ⟨sanitizeMentions ("I encountered an error: " ++ errMsg).data⟩, none, none⟩

/-! ## Concrete fixtures for counterexamples and witnesses -/

/-- A fixture issue. -/
def issueA : IssueData := { id := "i1", identifier := "T-1", title := "Test issue" }

/-- A fixture session created by a human user. -/
def sessionA : AgentSessionData :=
  { id := "s1", issueId := "i1", creatorId := some "u1", appUserId := some "agent-1",
    issue := some issueA }

/-- A fixture session whose creator is the controller's own agent. -/
def sessionSelf : AgentSessionData := { sessionA with creatorId := some "agent-1" }

/-- A verified session-created payload. -/
def createdPayload : LinearWebhookPayload :=
  { action := "created", type := "AgentSessionEvent", appUserId := some "agent-1",
    agentSession := some sessionA }

/-- A verified session-created payload triggered by the agent itself. -/
def createdSelfPayload : LinearWebhookPayload :=
  { createdPayload with agentSession := some sessionSelf }

/-- A verified prompted payload with the given activity id and message. -/
def promptedPayload (aid msg : String) : LinearWebhookPayload :=
  { action := "prompted", type := "AgentSessionEvent", appUserId := some "agent-1",
    agentSession := some sessionA,
    agentActivity := some { id := aid, content := some { type := "prompt", body := some msg } } }

/-- A verified prompted payload whose session was created by the agent
itself. -/
def promptedSelfPayload : LinearWebhookPayload :=
  { promptedPayload "a1" "more" with agentSession := some sessionSelf }

/-- A long assistant text (over 100 characters) still carrying the mention
token, used to exhibit an unsanitized thought preview. -/
def cexLongText : String :=
  "Pinging @claude here because this report needs a much longer explanation that easily exceeds one hundred characters."

/-- A verified stop-signal payload for the fixture session. -/
def stopPayload : LinearWebhookPayload :=
  { action := "prompted", type := "AgentSessionEvent", appUserId := some "agent-1",
    agentSession := some sessionA,
    agentActivity := some { id := "a9", signal := some "stop", content := none } }

/-! # Lemmas and claim theorems -/

set_option maxRecDepth 100000

/-! ## Store-map lemmas -/

/-- Lookup after the in-place overwrite map. -/
theorem storeLookup_overwrite (k v : String) (l : StoreMap) :
    storeLookup k (l.map fun e => if e.1 = k then (k, v) else e) =
      if (storeLookup k l).isSome then some v else none := by
  induction l with
  | nil => simp [storeLookup]
  | cons e rest ih =>
    by_cases he : e.1 = k
    · simp only [List.map_cons, if_pos he]
      simp [storeLookup, he]
    · simp only [List.map_cons, if_neg he]
      simp only [storeLookup, if_neg he]
      exact ih

/-- Lookup of an absent key after appending it. -/
theorem storeLookup_append_self (k v : String) (l : StoreMap)
    (h : storeLookup k l = none) :
    storeLookup k (l ++ [(k, v)]) = some v := by
  induction l with
  | nil => simp [storeLookup]
  | cons e rest ih =>
    by_cases he : e.1 = k
    · simp [storeLookup, he] at h
    · simp only [storeLookup, if_neg he] at h
      simpa [storeLookup, he] using ih h

/-- Setting a key makes it look up to the new value. -/
theorem storeLookup_set_self (k v : String) (l : StoreMap) :
    storeLookup k (storeSet k v l) = some v := by
  unfold storeSet
  by_cases h : (storeLookup k l).isSome
  · simp only [h, if_true]
    simp [storeLookup_overwrite, h]
  · simp only [h, if_false]
    exact storeLookup_append_self k v l (by
      cases hl : storeLookup k l
      · rfl
      · simp [hl] at h)

/-- Erasing a key makes it look up to `none`. -/
theorem storeLookup_erase_self (k : String) (l : StoreMap) :
    storeLookup k (storeErase k l) = none := by
  induction l with
  | nil => rfl
  | cons e rest ih =>
    by_cases he : e.1 = k
    · simpa [storeErase, he] using ih
    · simpa [storeErase, storeLookup, he] using ih

/-- C7: resumption store round-trip — after `set(sessionId, conversationId)`
a read of the same session id returns that conversation id, both through the
same instance and through a fresh instance that reloads the persisted file
(simulating a process restart); after `delete(sessionId)` a subsequent `get`
returns none, again through either instance. -/
theorem sessionStore_roundTrip (fs : DiskFile) (sid cid : String) :
    (SessionStoreState.get freshStore (SessionStoreState.set freshStore fs sid cid).2 sid).1 =
        some cid ∧
    (SessionStoreState.get (SessionStoreState.set freshStore fs sid cid).1
        (SessionStoreState.set freshStore fs sid cid).2 sid).1 = some cid ∧
    (SessionStoreState.get freshStore
        (SessionStoreState.del freshStore (SessionStoreState.set freshStore fs sid cid).2 sid).2
        sid).1 = none ∧
    (SessionStoreState.get
        (SessionStoreState.del freshStore (SessionStoreState.set freshStore fs sid cid).2 sid).1
        (SessionStoreState.del freshStore (SessionStoreState.set freshStore fs sid cid).2 sid).2
        sid).1 = none := by
  obtain ⟨contents⟩ := fs
  cases contents with
  | none =>
    simp [SessionStoreState.get, SessionStoreState.set, SessionStoreState.del,
      SessionStoreState.load, freshStore, storeLookup_set_self, storeLookup_erase_self]
  | some d =>
    simp [SessionStoreState.get, SessionStoreState.set, SessionStoreState.del,
      SessionStoreState.load, freshStore, storeLookup_set_self, storeLookup_erase_self]

/-- C6: the clarification split — on the spec's example text the marker is
detected and the cleaned text is the preamble, a blank line, and the text
after the marker, with the marker removed; any text not containing the
marker is reported as no clarification and returned unchanged. -/
theorem parseForClarification_spec :
    parseForClarification
        ("Here's what I found:\n\n[NEEDS_CLARIFICATION]\n\nI have questions.".data) =
      ⟨true, "Here's what I found:\n\nI have questions.".data⟩ ∧
    ∀ text : List Char, indexOfSub CLARIFICATION_MARKER text = none →
      parseForClarification text = ⟨false, text⟩ := by
  constructor
  · decide
  · intro text h
    simp [parseForClarification, h]

/-- Witness for C6: a concrete marker-free text goes through the unchanged
path. -/
theorem parseForClarification_spec_witness :
    indexOfSub CLARIFICATION_MARKER ("All done.".data) = none ∧
    parseForClarification ("All done.".data) = ⟨false, "All done.".data⟩ :=
  ⟨by decide, parseForClarification_spec.2 _ (by decide)⟩

/-! ## Registry lemmas -/

/-- Lookup after the registry's in-place overwrite map. -/
theorem regLookup_overwrite (k : String) (t : Nat) (l : Registry) :
    regLookup k (l.map fun e => if e.1 = k then (k, t) else e) =
      if (regLookup k l).isSome then some t else none := by
  induction l with
  | nil => simp [regLookup]
  | cons e rest ih =>
    by_cases he : e.1 = k
    · simp only [List.map_cons, if_pos he]
      simp [regLookup, he]
    · simp only [List.map_cons, if_neg he]
      simp only [regLookup, if_neg he]
      exact ih

/-- Lookup of an absent key after appending it. -/
theorem regLookup_append_self (k : String) (t : Nat) (l : Registry)
    (h : regLookup k l = none) :
    regLookup k (l ++ [(k, t)]) = some t := by
  induction l with
  | nil => simp [regLookup]
  | cons e rest ih =>
    by_cases he : e.1 = k
    · simp [regLookup, he] at h
    · simp only [regLookup, if_neg he] at h
      simpa [regLookup, he] using ih h

/-- Recording a key makes it look up to the recording time. -/
theorem regLookup_set_self (k : String) (t : Nat) (l : Registry) :
    regLookup k (regSet k t l) = some t := by
  unfold regSet
  by_cases h : (regLookup k l).isSome
  · simp only [h, if_true]
    simp [regLookup_overwrite, h]
  · simp only [h, if_false]
    refine regLookup_append_self k t l ?_
    cases hl : regLookup k l
    · rfl
    · simp [hl] at h

/-- The in-place overwrite of one key leaves other keys' lookups
unchanged. -/
theorem regLookup_overwrite_ne (k id : String) (t : Nat) (l : Registry) (hk : k ≠ id) :
    regLookup k (l.map fun e => if e.1 = id then (id, t) else e) = regLookup k l := by
  induction l with
  | nil => simp
  | cons e rest ih =>
    by_cases he : e.1 = id
    · have hek : ¬(e.1 = k) := by
        rw [he]
        exact fun hcontra => hk hcontra.symm
      simp only [List.map_cons, if_pos he]
      simp only [regLookup, if_neg hek,
        if_neg (fun hcontra : id = k => hk hcontra.symm)]
      exact ih
    · simp only [List.map_cons, if_neg he]
      by_cases hek : e.1 = k
      · simp [regLookup, hek]
      · simp only [regLookup, if_neg hek]
        exact ih

/-- Appending an entry for one key leaves other keys' lookups unchanged. -/
theorem regLookup_append_ne (k id : String) (t : Nat) (l : Registry) (hk : k ≠ id) :
    regLookup k (l ++ [(id, t)]) = regLookup k l := by
  induction l with
  | nil =>
    simp only [List.nil_append, regLookup,
      if_neg (fun hcontra : id = k => hk hcontra.symm)]
  | cons e rest ih =>
    by_cases hek : e.1 = k
    · simp [regLookup, hek]
    · simp only [List.cons_append, regLookup, if_neg hek]
      exact ih

/-- Recording one key leaves every other key's lookup unchanged. -/
theorem regLookup_set_ne (k id : String) (t : Nat) (l : Registry) (hk : k ≠ id) :
    regLookup k (regSet id t l) = regLookup k l := by
  unfold regSet
  by_cases h : (regLookup id l).isSome
  · simp only [h, if_true]
    exact regLookup_overwrite_ne k id t l hk
  · simp only [h, if_false]
    exact regLookup_append_ne k id t l hk

/-- A kept entry still looks up to the same value after a filter. -/
theorem regLookup_filter_of_keep (k : String) (ts : Nat) (p : String × Nat → Bool)
    (l : Registry) (h : regLookup k l = some ts) (hp : p (k, ts) = true) :
    regLookup k (l.filter p) = some ts := by
  induction l with
  | nil => simp [regLookup] at h
  | cons e rest ih =>
    by_cases he : e.1 = k
    · simp only [regLookup, if_pos he] at h
      obtain ⟨e1, e2⟩ := e
      simp only at he
      subst he
      injection h with h2
      subst h2
      simp [List.filter, hp, regLookup]
    · simp only [regLookup, if_neg he] at h
      rcases hpe : p e with _ | _
      · simp only [List.filter_cons, hpe, if_false, Bool.false_eq_true, ite_false]
        exact ih h
      · simp only [List.filter_cons, hpe, ite_true]
        simp only [regLookup, if_neg he]
        exact ih h

/-- A key matching no entry looks up to `none`. -/
theorem regLookup_eq_none_of_forall (k : String) (l : Registry)
    (h : ∀ e ∈ l, ¬(e.1 = k)) : regLookup k l = none := by
  induction l with
  | nil => rfl
  | cons e rest ih =>
    simp only [regLookup, if_neg (h e (List.mem_cons_self e rest))]
    exact ih fun e' he' => h e' (List.mem_cons_of_mem e he')

/-- A key absent from the registry stays absent after a filter. -/
theorem regLookup_filter_of_none (k : String) (p : String × Nat → Bool)
    (l : Registry) (h : regLookup k l = none) :
    regLookup k (l.filter p) = none := by
  induction l with
  | nil => simp [regLookup]
  | cons e rest ih =>
    by_cases he : e.1 = k
    · simp [regLookup, he] at h
    · simp only [regLookup, if_neg he] at h
      rcases hpe : p e with _ | _
      · simp only [List.filter_cons, hpe, Bool.false_eq_true, ite_false]
        exact ih h
      · simp only [List.filter_cons, hpe, ite_true]
        simp only [regLookup, if_neg he]
        exact ih h

/-- C9: the capacity sweep in `markSessionProcessed` removes only expired
entries and only when the registry is at the capacity ceiling — every other
key's entry survives unchanged; every key reported processed at a (real,
positive) current time is still reported processed after the mark; and when
the registry is at capacity with no expired entry and a fresh key is
recorded, nothing is evicted and the registry grows past the ceiling. -/
theorem markSessionProcessed_sweep (reg : Registry) (id : String) (now : Nat) :
    (∀ k ts, regLookup k reg = some ts → k ≠ id →
      (now - ts ≤ SESSION_TTL_MS ∨ reg.length < MAX_SESSIONS) →
      regLookup k (markSessionProcessed id now reg) = some ts) ∧
    (∀ k, 0 < now → isSessionProcessed k now reg = true →
      isSessionProcessed k now (markSessionProcessed id now reg) = true) ∧
    (MAX_SESSIONS ≤ reg.length → (∀ e ∈ reg, now - e.2 ≤ SESSION_TTL_MS) →
      regLookup id reg = none →
      (markSessionProcessed id now reg).length = reg.length + 1) := by
  have keep : ∀ k ts, regLookup k reg = some ts → k ≠ id →
      now - ts ≤ SESSION_TTL_MS ∨ reg.length < MAX_SESSIONS →
      regLookup k (markSessionProcessed id now reg) = some ts := by
    intro k ts hl hk hcase
    unfold markSessionProcessed
    rw [regLookup_set_ne k id now _ hk]
    by_cases hcap : MAX_SESSIONS ≤ reg.length
    · rw [if_pos hcap]
      rcases hcase with hfresh | hsmall
      · refine regLookup_filter_of_keep k ts _ reg hl ?_
        simp only [Bool.not_eq_true']
        simpa [decide_eq_false_iff_not] using Nat.not_lt.mpr hfresh
      · omega
    · rw [if_neg hcap]
      exact hl
  refine ⟨keep, ?_, ?_⟩
  · intro k hnow hproc
    rcases hl : regLookup k reg with _ | ts
    · simp [isSessionProcessed, hl] at hproc
    · simp only [isSessionProcessed, hl, Bool.and_eq_true, decide_eq_true_eq] at hproc
      obtain ⟨hts, hfresh⟩ := hproc
      by_cases hk : k = id
      · subst hk
        unfold markSessionProcessed
        simp [isSessionProcessed, regLookup_set_self, Nat.pos_iff_ne_zero.mp hnow,
          SESSION_TTL_MS]
      · have := keep k ts hl hk (Or.inl (Nat.le_of_lt hfresh))
        simp [isSessionProcessed, this, hts, hfresh]
  · intro hcap hfresh hnone
    unfold markSessionProcessed
    rw [if_pos hcap]
    have hsweep : sweepExpired now reg = reg := by
      unfold sweepExpired
      refine List.filter_eq_self.mpr ?_
      intro e he
      simp only [Bool.not_eq_true']
      simpa [decide_eq_false_iff_not] using Nat.not_lt.mpr (hfresh e he)
    rw [hsweep]
    unfold regSet
    rw [hnone]
    simp

/-- Witness for C9 at a concrete registry holding the capacity ceiling of
1000 all-fresh entries: a fresh entry survives the mark, a processed key
stays processed, and the registry grows past the ceiling. -/
theorem markSessionProcessed_sweep_witness :
    regLookup "hit" (markSessionProcessed "x" 2 (("hit", 1) :: List.replicate 999 ("k", 1))) =
      some 1 ∧
    isSessionProcessed "hit" 2
        (markSessionProcessed "x" 2 (("hit", 1) :: List.replicate 999 ("k", 1))) = true ∧
    (markSessionProcessed "x" 2 (("hit", 1) :: List.replicate 999 ("k", 1))).length =
      (("hit", 1) :: List.replicate 999 ("k", 1)).length + 1 := by
  have hlook : regLookup "hit" (("hit", 1) :: List.replicate 999 ("k", 1)) = some 1 := by
    simp [regLookup]
  have hnone : regLookup "x" (("hit", 1) :: List.replicate 999 ("k", 1)) = none := by
    refine regLookup_eq_none_of_forall _ _ ?_
    intro e he
    rcases List.mem_cons.mp he with rfl | hrep
    · decide
    · rw [(List.mem_replicate.mp hrep).2]
      decide
  have hfresh : ∀ e ∈ ("hit", 1) :: List.replicate 999 ("k", 1),
      2 - e.2 ≤ SESSION_TTL_MS := by
    intro e he
    rcases List.mem_cons.mp he with rfl | hrep
    · decide
    · rw [(List.mem_replicate.mp hrep).2]
      decide
  have hcap : MAX_SESSIONS ≤ (("hit", 1) :: List.replicate 999 ("k", 1)).length := by
    simp [MAX_SESSIONS]
  have hproc : isSessionProcessed "hit" 2 (("hit", 1) :: List.replicate 999 ("k", 1)) = true := by
    rw [isSessionProcessed, hlook]
    decide
  exact ⟨(markSessionProcessed_sweep _ "x" 2).1 "hit" 1 hlook (by decide) (Or.inl (by decide)),
    (markSessionProcessed_sweep _ "x" 2).2.1 "hit" (by decide) hproc,
    (markSessionProcessed_sweep _ "x" 2).2.2 hcap hfresh hnone⟩

/-! ## Signature verification lemmas -/

/-- One SHA-256 round preserves the state length. -/
theorem shaRound_length (st : List Nat) (kw : Nat × Nat) :
    (shaRound st kw).length = st.length := by
  unfold shaRound
  split
  · simp
  · rfl

/-- Folding rounds preserves the state length. -/
theorem foldl_shaRound_length (l : List (Nat × Nat)) (st : List Nat) :
    (l.foldl shaRound st).length = st.length := by
  induction l generalizing st with
  | nil => rfl
  | cons kw rest ih =>
    rw [List.foldl_cons, ih, shaRound_length]

/-- Compression preserves the hash-state length. -/
theorem compress_length (h chunk : List Nat) : (compress h chunk).length = h.length := by
  unfold compress
  rw [List.length_map, List.length_zip, foldl_shaRound_length]
  omega

/-- Folding compression over chunks preserves the hash-state length. -/
theorem foldl_compress_length (chunks : List (List Nat)) (h : List Nat) :
    (chunks.foldl compress h).length = h.length := by
  induction chunks generalizing h with
  | nil => rfl
  | cons c rest ih =>
    rw [List.foldl_cons, ih, compress_length]

/-- Serializing words to bytes quadruples the length. -/
theorem flatMap_wordToBytes_length (l : List Nat) :
    (l.flatMap wordToBytes).length = 4 * l.length := by
  induction l with
  | nil => rfl
  | cons x rest ih =>
    simp only [List.flatMap_cons, List.length_append, ih, wordToBytes, List.length_cons,
      List.length_nil]
    omega

/-- A SHA-256 digest is 32 bytes. -/
theorem sha256_length (msg : List Nat) : (sha256 msg).length = 32 := by
  unfold sha256
  rw [flatMap_wordToBytes_length, foldl_compress_length]
  rfl

/-- Hex encoding doubles the length. -/
theorem hexBytes_length (l : List Nat) : (hexBytes l).length = 2 * l.length := by
  induction l with
  | nil => rfl
  | cons b rest ih =>
    simp only [hexBytes, List.flatMap_cons, List.length_append, List.length_cons,
      List.length_nil]
    simp only [hexBytes] at ih
    omega

/-- The hex HMAC digest string is 64 characters. -/
theorem hexHmac_length (secret body : List Nat) : (hexHmac secret body).length = 64 := by
  unfold hexHmac hmacSha256
  rw [hexBytes_length, sha256_length]

/-- The hex HMAC digest string is never empty. -/
theorem hexHmac_ne_nil (secret body : List Nat) : hexHmac secret body ≠ [] := by
  intro h
  have := hexHmac_length secret body
  rw [h] at this
  simp at this

/-- The caught constant-time comparison decides equality. -/
theorem timingSafeEqualCaught_eq_true (a b : List Nat) :
    timingSafeEqualCaught a b = true ↔ a = b := by
  unfold timingSafeEqualCaught
  by_cases h : a.length = b.length
  · simp [h]
  · simp only [h, if_false]
    constructor
    · intro hcontra
      exact absurd hcontra (by simp)
    · intro heq
      exact absurd (heq ▸ rfl) h

/-- C8: `verifySignature` is total (the embedding is a function; the
`try`/`catch` around the comparison is `timingSafeEqualCaught`) and returns
`true` exactly when the claimed signature equals the hex HMAC-SHA-256 of
the body under the secret; a missing or empty signature is always rejected;
consequently a signature computed under a different secret, or the
signature of a different body, fails whenever the digests differ — which
the witness checks at concrete inputs. -/
theorem verifySignature_spec :
    (∀ body sig secret,
      verifySignature body (some sig) secret = true ↔ sig = hexHmac secret body) ∧
    (∀ body secret, verifySignature body none secret = false) ∧
    (∀ body secret, verifySignature body (some []) secret = false) ∧
    (∀ body secretA secretB, hexHmac secretA body ≠ hexHmac secretB body →
      verifySignature body (some (hexHmac secretA body)) secretB = false) ∧
    (∀ body body' secret, hexHmac secret body' ≠ hexHmac secret body →
      verifySignature body' (some (hexHmac secret body)) secret = false) := by
  have main : ∀ body sig secret,
      verifySignature body (some sig) secret = true ↔ sig = hexHmac secret body := by
    intro body sig secret
    unfold verifySignature
    by_cases hs : sig.isEmpty
    · have hnil : sig = [] := by
        cases sig
        · rfl
        · simp [List.isEmpty] at hs
      subst hnil
      simp only [List.isEmpty_nil, if_true]
      constructor
      · intro hcontra
        exact absurd hcontra (by simp)
      · intro heq
        exact absurd heq.symm (hexHmac_ne_nil secret body)
    · simp only [hs, if_false]
      exact timingSafeEqualCaught_eq_true sig (hexHmac secret body)
  refine ⟨main, fun body secret => rfl, fun body secret => rfl, ?_, ?_⟩
  · intro body secretA secretB hne
    refine Bool.eq_false_iff.mpr fun htrue => hne ?_
    exact (main body (hexHmac secretA body) secretB).mp htrue
  · intro body body' secret hne
    refine Bool.eq_false_iff.mpr fun htrue => hne ?_
    exact ((main body' (hexHmac secret body) secret).mp htrue).symm

set_option maxHeartbeats 4000000

/-- Witness for C8 at concrete bytes: the signature of `"hello"` under
secret `"A"` fails against secret `"B"`, and the signature of `"hello"`
fails for the body with its first byte flipped (`"iello"`). -/
theorem verifySignature_spec_witness :
    verifySignature [104, 101, 108, 108, 111]
        (some (hexHmac [65] [104, 101, 108, 108, 111])) [66] = false ∧
    verifySignature [105, 101, 108, 108, 111]
        (some (hexHmac [65] [104, 101, 108, 108, 111])) [65] = false :=
  ⟨verifySignature_spec.2.2.2.1 [104, 101, 108, 108, 111] [65] [66] (by decide),
   verifySignature_spec.2.2.2.2 [104, 101, 108, 108, 111] [105, 101, 108, 108, 111] [65]
     (by decide)⟩

/-! ## Webhook handler lemmas -/

/-- A prompted payload is not classified as created (the `action` strings
differ). -/
theorem created_false_of_prompted (p : LinearWebhookPayload)
    (hp : isAgentSessionPrompted p = true) : isAgentSessionCreated p = false := by
  unfold isAgentSessionPrompted at hp
  unfold isAgentSessionCreated
  rw [Bool.and_eq_true] at hp
  obtain ⟨ht, ha⟩ := hp
  rw [beq_iff_eq] at ha
  rw [Bool.and_eq_false_iff]
  right
  rw [beq_eq_false_iff_ne, ha]
  decide

/-- Marking a key makes it reported processed at any time within the TTL
window, as long as the recording time is a real (positive) clock value. -/
theorem isSessionProcessed_after_mark (key : String) (now₁ now₂ : Nat) (reg : Registry)
    (h1 : 0 < now₁) (h2 : now₂ - now₁ < SESSION_TTL_MS) :
    isSessionProcessed key now₂ (markSessionProcessed key now₁ reg) = true := by
  unfold markSessionProcessed isSessionProcessed
  rw [regLookup_set_self]
  simp [Nat.pos_iff_ne_zero.mp h1, h2]

/-- C5: stop handling — a stop-signal payload whose session id has a live
cancellation handle aborts that handle, removes it from the registry, emits
the acknowledgement activity, and answers `cancelled: true`; with no live
handle nothing is aborted or emitted and the answer is `cancelled: false`,
in both cases without an error response. -/
theorem stop_signal_handling (st : ServerState) (now : Nat) (p : LinearWebhookPayload)
    (s : AgentSessionData) (hp : isAgentSessionPrompted p = true)
    (hs : p.agentSession = some s) (hstop : isStopSignal p = true) :
    (s.id ∈ st.runningAgents →
      handleWebhook st now p =
        ⟨.okStop true, ⟨st.processedSessions, st.runningAgents.erase s.id⟩, [],
         [⟨"response", some stopAckBody, none, none⟩], [s.id], []⟩) ∧
    (s.id ∉ st.runningAgents →
      handleWebhook st now p = ⟨.okStop false, st, [], [], [], []⟩) := by
  have hc := created_false_of_prompted p hp
  constructor
  · intro hmem
    simp [handleWebhook, hc, hp, hs, hstop, hmem]
  · intro hmem
    simp [handleWebhook, hc, hp, hs, hstop, hmem]

/-- Witness for C5: with a live handle for the fixture session the stop is
cancelled and acknowledged; with no live handle it is a no-op with
`cancelled: false`. -/
theorem stop_signal_handling_witness :
    handleWebhook ⟨[], ["s1"]⟩ 5 stopPayload =
      ⟨.okStop true, ⟨[], []⟩, [], [⟨"response", some stopAckBody, none, none⟩],
       ["s1"], []⟩ ∧
    handleWebhook ⟨[], []⟩ 5 stopPayload = ⟨.okStop false, ⟨[], []⟩, [], [], [], []⟩ := by
  constructor
  · have h := (stop_signal_handling ⟨[], ["s1"]⟩ 5 stopPayload sessionA (by decide) (by decide)
      (by decide)).1 (by decide)
    simpa using h
  · have h := (stop_signal_handling ⟨[], []⟩ 5 stopPayload sessionA (by decide) (by decide)
      (by decide)).2 (by decide)
    simpa using h

/-- C2 counterexample: a verified prompted follow-up whose triggering actor
id equals the controller's own agent id is NOT suppressed — the handler
invokes the agent capability once and answers with the plain
acknowledgement, not `skipped: "self-trigger"` (the prompted branch never
consults `isSelfTrigger`). -/
theorem selfTrigger_prompted_cex :
    isSelfTrigger promptedSelfPayload = true ∧
    isAgentSessionPrompted promptedSelfPayload = true ∧
    (handleWebhook ⟨[], []⟩ 5 promptedSelfPayload).response = .okPlain ∧
    (handleWebhook ⟨[], []⟩ 5 promptedSelfPayload).invocations.length = 1 := by
  decide

/-- C2 (amended): for session-created events, when the dedup check has not
already intercepted the payload, a self-triggered payload is suppressed
before any run starts: the state is untouched, no agent invocation happens,
and the response reports `skipped: "self-trigger"`. -/
theorem selfTrigger_created_suppressed (st : ServerState) (now : Nat)
    (p : LinearWebhookPayload) (s : AgentSessionData)
    (hc : isAgentSessionCreated p = true) (hs : p.agentSession = some s)
    (hdup : isSessionProcessed s.id now st.processedSessions = false)
    (hself : isSelfTrigger p = true) :
    handleWebhook st now p = ⟨.okSkipped "self-trigger", st, [], [], [], []⟩ := by
  simp [handleWebhook, hc, hs, hdup, hself]

/-- Witness for C2 (amended) at the concrete self-triggered created
payload. -/
theorem selfTrigger_created_suppressed_witness :
    handleWebhook ⟨[], []⟩ 5 createdSelfPayload =
      ⟨.okSkipped "self-trigger", ⟨[], []⟩, [], [], [], []⟩ :=
  selfTrigger_created_suppressed ⟨[], []⟩ 5 createdSelfPayload sessionSelf
    (by decide) (by decide) (by decide) (by decide)

/-- With unique keys, a filter either erases a key's entry or leaves its
lookup unchanged — it never exposes a different value. -/
theorem regLookup_filter_cases (k : String) (p : String × Nat → Bool) (l : Registry)
    (hnd : (l.map Prod.fst).Nodup) :
    regLookup k (l.filter p) = none ∨ regLookup k (l.filter p) = regLookup k l := by
  induction l with
  | nil => left; rfl
  | cons e rest ih =>
    rw [List.map_cons, List.nodup_cons] at hnd
    obtain ⟨hhd, htl⟩ := hnd
    by_cases he : e.1 = k
    · have hrest : regLookup k rest = none := by
        refine regLookup_eq_none_of_forall k rest fun e' he' hcontra => hhd ?_
        rw [he, ← hcontra]
        exact List.mem_map_of_mem Prod.fst he'
      rcases hpe : p e with _ | _
      · left
        simp only [List.filter_cons, hpe, Bool.false_eq_true, ite_false]
        exact regLookup_filter_of_none k p rest hrest
      · right
        simp only [List.filter_cons, hpe, ite_true]
        simp [regLookup, he]
    · rcases hpe : p e with _ | _
      · simp only [List.filter_cons, hpe, Bool.false_eq_true, ite_false]
        rcases ih htl with hnone | hsame
        · left; exact hnone
        · right
          rw [hsame]
          simp [regLookup, he]
      · simp only [List.filter_cons, hpe, ite_true]
        simp only [regLookup, if_neg he]
        exact ih htl

/-- With unique keys, a key not reported processed stays unreported after a
filter of the registry. -/
theorem isSessionProcessed_filter_false (k : String) (now : Nat)
    (p : String × Nat → Bool) (l : Registry) (hnd : (l.map Prod.fst).Nodup)
    (h : isSessionProcessed k now l = false) :
    isSessionProcessed k now (l.filter p) = false := by
  rcases regLookup_filter_cases k p l hnd with hnone | hsame
  · simp [isSessionProcessed, hnone]
  · unfold isSessionProcessed at h ⊢
    rw [hsame]
    exact h

/-- With unique keys, recording one key cannot make a different key
reported processed. -/
theorem isSessionProcessed_mark_ne (key k : String) (now₁ now₂ : Nat) (reg : Registry)
    (hk : k ≠ key) (hnd : (reg.map Prod.fst).Nodup)
    (h : isSessionProcessed k now₂ reg = false) :
    isSessionProcessed k now₂ (markSessionProcessed key now₁ reg) = false := by
  unfold markSessionProcessed
  unfold isSessionProcessed at h ⊢
  rw [regLookup_set_ne k key now₁ _ hk]
  by_cases hcap : MAX_SESSIONS ≤ reg.length
  · rw [if_pos hcap]
    have := isSessionProcessed_filter_false k now₂
      (fun e => !decide (SESSION_TTL_MS < now₂ - e.2)) reg hnd
    unfold sweepExpired
    rcases regLookup_filter_cases k (fun e => !decide (SESSION_TTL_MS < now₁ - e.2)) reg hnd
      with hnone | hsame
    · rw [hnone]
    · rw [hsame]
      exact h
  · rw [if_neg hcap]
    exact h

/-- The processed branch for a created event, extracted from its response:
the payload was fresh and not a self-trigger, the key was recorded, the
abort handle registered, and exactly one run was invoked. -/
theorem created_run_shape (st : ServerState) (now : Nat) (p : LinearWebhookPayload)
    (s : AgentSessionData) (hc : isAgentSessionCreated p = true)
    (hs : p.agentSession = some s)
    (hresp : (handleWebhook st now p).response = .okPlain) :
    handleWebhook st now p =
      ⟨.okPlain, ⟨markSessionProcessed s.id now st.processedSessions,
        setAdd s.id st.runningAgents⟩, [⟨s, p.promptContext, none⟩], [], [], []⟩ := by
  by_cases hd : isSessionProcessed s.id now st.processedSessions = true
  · exfalso
    simp [handleWebhook, hc, hs, hd] at hresp
  · rw [Bool.not_eq_true] at hd
    by_cases hself : isSelfTrigger p = true
    · exfalso
      simp [handleWebhook, hc, hs, hd, hself] at hresp
    · rw [Bool.not_eq_true] at hself
      simp [handleWebhook, hc, hs, hd, hself]

/-- The processed branch for a prompted follow-up, extracted from its
response: the dedup key was fresh, got recorded, and exactly one run was
invoked with the user's message. -/
theorem prompted_run_shape (st : ServerState) (now : Nat) (p : LinearWebhookPayload)
    (s : AgentSessionData) (m : String) (hp : isAgentSessionPrompted p = true)
    (hs : p.agentSession = some s) (hstop : isStopSignal p = false)
    (hmsg : getPromptedMessage p = some m)
    (hresp : (handleWebhook st now p).response = .okPlain) :
    handleWebhook st now p =
      ⟨.okPlain, ⟨markSessionProcessed (promptedDedupeKey s.id p.agentActivity) now
        st.processedSessions, setAdd s.id st.runningAgents⟩,
       [⟨s, p.promptContext, some m⟩], [], [], []⟩ := by
  have hc := created_false_of_prompted p hp
  by_cases hd : isSessionProcessed (promptedDedupeKey s.id p.agentActivity) now
      st.processedSessions = true
  · exfalso
    simp [handleWebhook, hc, hp, hs, hstop, hmsg, hd] at hresp
  · rw [Bool.not_eq_true] at hd
    simp [handleWebhook, hc, hp, hs, hstop, hmsg, hd]

/-- C1 counterexample: two verified prompted payloads with the same session
id and different activity ids ("" and "unknown") are NOT both processed —
the dedup key normalizes an empty activity id to the literal "unknown", so
the second delivery is skipped as a duplicate with no second invocation. -/
theorem dedup_distinct_ids_cex :
    ("" : String) ≠ "unknown" ∧
    (handleWebhook ⟨[], []⟩ 5 (promptedPayload "" "hi")).response = .okPlain ∧
    (handleWebhook (handleWebhook ⟨[], []⟩ 5 (promptedPayload "" "hi")).state 6
        (promptedPayload "unknown" "hi")).response = .okSkipped "duplicate" ∧
    (handleWebhook (handleWebhook ⟨[], []⟩ 5 (promptedPayload "" "hi")).state 6
        (promptedPayload "unknown" "hi")).invocations = [] := by
  decide

/-- C1 (amended): duplicate suppression uses the dedup keys the code
records before a run starts.  (1) A processed session-created payload
redelivered while its key is unexpired is skipped as a duplicate with no
second invocation.  (2) Two verified prompted payloads with the same
session id are both processed (one invocation each) whenever their dedup
keys — session id joined with the activity id, an empty id normalized to
"unknown" — differ and the second key is fresh.  (3) Two prompted payloads
with the same session id whose dedup keys coincide produce exactly one
invocation: the second is skipped as a duplicate. -/
theorem dedup_spec :
    (∀ (st : ServerState) (now₁ now₂ : Nat) (p : LinearWebhookPayload)
      (s : AgentSessionData),
      isAgentSessionCreated p = true → p.agentSession = some s →
      (handleWebhook st now₁ p).response = .okPlain →
      0 < now₁ → now₂ - now₁ < SESSION_TTL_MS →
      (handleWebhook st now₁ p).invocations.length = 1 ∧
      (handleWebhook (handleWebhook st now₁ p).state now₂ p).response =
        .okSkipped "duplicate" ∧
      (handleWebhook (handleWebhook st now₁ p).state now₂ p).invocations = []) ∧
    (∀ (st : ServerState) (now₁ now₂ : Nat) (p₁ p₂ : LinearWebhookPayload)
      (s : AgentSessionData) (m₁ m₂ : String),
      isAgentSessionPrompted p₁ = true → p₁.agentSession = some s →
      isStopSignal p₁ = false → getPromptedMessage p₁ = some m₁ →
      isAgentSessionPrompted p₂ = true → p₂.agentSession = some s →
      isStopSignal p₂ = false → getPromptedMessage p₂ = some m₂ →
      promptedDedupeKey s.id p₁.agentActivity ≠ promptedDedupeKey s.id p₂.agentActivity →
      (st.processedSessions.map Prod.fst).Nodup →
      isSessionProcessed (promptedDedupeKey s.id p₂.agentActivity) now₂
        st.processedSessions = false →
      (handleWebhook st now₁ p₁).response = .okPlain →
      (handleWebhook st now₁ p₁).invocations.length = 1 ∧
      (handleWebhook (handleWebhook st now₁ p₁).state now₂ p₂).response = .okPlain ∧
      (handleWebhook (handleWebhook st now₁ p₁).state now₂ p₂).invocations.length = 1) ∧
    (∀ (st : ServerState) (now₁ now₂ : Nat) (p₁ p₂ : LinearWebhookPayload)
      (s : AgentSessionData) (m₁ m₂ : String),
      isAgentSessionPrompted p₁ = true → p₁.agentSession = some s →
      isStopSignal p₁ = false → getPromptedMessage p₁ = some m₁ →
      isAgentSessionPrompted p₂ = true → p₂.agentSession = some s →
      isStopSignal p₂ = false → getPromptedMessage p₂ = some m₂ →
      promptedDedupeKey s.id p₁.agentActivity = promptedDedupeKey s.id p₂.agentActivity →
      (handleWebhook st now₁ p₁).response = .okPlain →
      0 < now₁ → now₂ - now₁ < SESSION_TTL_MS →
      (handleWebhook st now₁ p₁).invocations.length = 1 ∧
      (handleWebhook (handleWebhook st now₁ p₁).state now₂ p₂).response =
        .okSkipped "duplicate" ∧
      (handleWebhook (handleWebhook st now₁ p₁).state now₂ p₂).invocations = []) := by
  refine ⟨?_, ?_, ?_⟩
  · intro st now₁ now₂ p s hc hs hresp hpos hwin
    have hshape := created_run_shape st now₁ p s hc hs hresp
    rw [hshape]
    refine ⟨rfl, ?_, ?_⟩
    · have hdup := isSessionProcessed_after_mark s.id now₁ now₂ st.processedSessions hpos hwin
      simp [handleWebhook, hc, hs, hdup]
    · have hdup := isSessionProcessed_after_mark s.id now₁ now₂ st.processedSessions hpos hwin
      simp [handleWebhook, hc, hs, hdup]
  · intro st now₁ now₂ p₁ p₂ s m₁ m₂ hp₁ hs₁ hstop₁ hmsg₁ hp₂ hs₂ hstop₂ hmsg₂ hkeys hnd
      hfresh₂ hresp₁
    have hshape := prompted_run_shape st now₁ p₁ s m₁ hp₁ hs₁ hstop₁ hmsg₁ hresp₁
    rw [hshape]
    have hc₂ := created_false_of_prompted p₂ hp₂
    have hdup₂ : isSessionProcessed (promptedDedupeKey s.id p₂.agentActivity) now₂
        (markSessionProcessed (promptedDedupeKey s.id p₁.agentActivity) now₁
          st.processedSessions) = false :=
      isSessionProcessed_mark_ne _ _ now₁ now₂ st.processedSessions
        (fun hcontra => hkeys hcontra.symm) hnd hfresh₂
    refine ⟨rfl, ?_, ?_⟩
    · simp [handleWebhook, hc₂, hp₂, hs₂, hstop₂, hmsg₂, hdup₂]
    · simp [handleWebhook, hc₂, hp₂, hs₂, hstop₂, hmsg₂, hdup₂]
  · intro st now₁ now₂ p₁ p₂ s m₁ m₂ hp₁ hs₁ hstop₁ hmsg₁ hp₂ hs₂ hstop₂ hmsg₂ hkeys
      hresp₁ hpos hwin
    have hshape := prompted_run_shape st now₁ p₁ s m₁ hp₁ hs₁ hstop₁ hmsg₁ hresp₁
    rw [hshape]
    have hc₂ := created_false_of_prompted p₂ hp₂
    have hdup₂ : isSessionProcessed (promptedDedupeKey s.id p₂.agentActivity) now₂
        (markSessionProcessed (promptedDedupeKey s.id p₁.agentActivity) now₁
          st.processedSessions) = true := by
      rw [← hkeys]
      exact isSessionProcessed_after_mark _ now₁ now₂ st.processedSessions hpos hwin
    refine ⟨rfl, ?_, ?_⟩
    · simp [handleWebhook, hc₂, hp₂, hs₂, hstop₂, hmsg₂, hdup₂]
    · simp [handleWebhook, hc₂, hp₂, hs₂, hstop₂, hmsg₂, hdup₂]

/-- Witness for C1 (amended) at concrete payloads: a redelivered created
payload is skipped as a duplicate; prompted follow-ups with activity ids
"a1" and "a2" are both processed; a redelivered "a1" follow-up is skipped. -/
theorem dedup_spec_witness :
    (handleWebhook (handleWebhook ⟨[], []⟩ 5 createdPayload).state 6
        createdPayload).response = .okSkipped "duplicate" ∧
    (handleWebhook (handleWebhook ⟨[], []⟩ 5 (promptedPayload "a1" "hi")).state 6
        (promptedPayload "a2" "ho")).response = .okPlain ∧
    (handleWebhook (handleWebhook ⟨[], []⟩ 5 (promptedPayload "a1" "hi")).state 6
        (promptedPayload "a1" "hi")).response = .okSkipped "duplicate" :=
  ⟨(dedup_spec.1 ⟨[], []⟩ 5 6 createdPayload sessionA (by decide) (by decide) (by decide)
      (by decide) (by decide)).2.1,
   (dedup_spec.2.1 ⟨[], []⟩ 5 6 (promptedPayload "a1" "hi") (promptedPayload "a2" "ho")
      sessionA "hi" "ho" (by decide) (by decide) (by decide) (by decide) (by decide)
      (by decide) (by decide) (by decide) (by decide) (by decide) (by decide)
      (by decide)).2.1,
   (dedup_spec.2.2 ⟨[], []⟩ 5 6 (promptedPayload "a1" "hi") (promptedPayload "a1" "hi")
      sessionA "hi" "hi" (by decide) (by decide) (by decide) (by decide) (by decide)
      (by decide) (by decide) (by decide) (by decide) (by decide) (by decide)
      (by decide)).2.1⟩

/-- C4 counterexample: a fresh (non-resuming) run that captures a
conversation id from the stream and then fails keeps its resumption entry —
the catch deletes only when `existingClaudeSessionId` was truthy, so a
subsequent follow-up would find the entry and resume, not start fresh. -/
theorem failed_run_keeps_entry_cex :
    storeLookup "s1"
        (runAgentFailedModel ⟨sessionA, none, none⟩ []
          [⟨some "conv-1", .other⟩] 1 "boom").store = some "conv-1" := by
  decide

/-- C4 (amended): when the failed run was itself a resume attempt — a
follow-up message was present and the store held a (truthy) conversation id
for this session at run start — the catch block deletes the session's
resumption entry, so a subsequent follow-up finds none and starts fresh. -/
theorem failed_resume_clears_entry (inp : RunInput) (store0 : StoreMap)
    (stream : List AgentMessage) (k : Nat) (errMsg : String) (issue : IssueData)
    (hiss : inp.session.issue = some issue)
    (hresume : jsTruthy (existingClaudeSessionId inp store0) = true) :
    storeLookup inp.session.id (runAgentFailedModel inp store0 stream k errMsg).store =
      none := by
  unfold runAgentFailedModel
  rw [hiss]
  simp only [hresume, if_true, RunState.emit]
  exact storeLookup_erase_self _ _

/-- Witness for C4 (amended): a concrete failing resume attempt ends with
no entry for the session. -/
theorem failed_resume_clears_entry_witness :
    storeLookup "s1"
        (runAgentFailedModel ⟨sessionA, none, some "again"⟩ [("s1", "conv-0")] [] 0
          "boom").store = none :=
  failed_resume_clears_entry ⟨sessionA, none, some "again"⟩ [("s1", "conv-0")] [] 0 "boom"
    issueA (by decide) (by decide)

/-! ## Activity-stream lemmas for the sanitization claims -/

/-- Every activity a content block adds is a thought or action note. -/
theorem processBlock_mem (st : RunState) (b : ContentBlock) (a : ActivityContent)
    (ha : a ∈ (processBlock st b).activities) :
    a ∈ st.activities ∨ a.type = "thought" ∨ a.type = "action" := by
  cases b with
  | text t =>
    by_cases h : 100 < t.length
    · simp only [processBlock, h, if_true, RunState.emit] at ha
      rcases List.mem_append.mp ha with h1 | h2
      · exact Or.inl h1
      · rw [List.mem_singleton] at h2
        subst h2
        exact Or.inr (Or.inl rfl)
    · simp only [processBlock, h, if_false, RunState.emit] at ha
      exact Or.inl ha
  | toolUse i n inp =>
    simp only [processBlock, RunState.emit] at ha
    rcases List.mem_append.mp ha with h1 | h2
    · refine Or.inl ?_
      simpa only [apply_ite RunState.activities, ite_self] using h1
    · rw [List.mem_singleton] at h2
      subst h2
      exact Or.inr (Or.inr rfl)

/-- Every activity the block fold adds is a thought or action note. -/
theorem foldl_processBlock_mem (blocks : List ContentBlock) (st : RunState)
    (a : ActivityContent) (ha : a ∈ (blocks.foldl processBlock st).activities) :
    a ∈ st.activities ∨ a.type = "thought" ∨ a.type = "action" := by
  induction blocks generalizing st with
  | nil => exact Or.inl ha
  | cons b rest ih =>
    rw [List.foldl_cons] at ha
    rcases ih (processBlock st b) ha with h1 | h2
    · exact processBlock_mem st b a h1
    · exact Or.inr h2

/-- The session-id capture does not emit activities. -/
theorem captureSession_activities (sid : String) (st : RunState) (m : AgentMessage) :
    (captureSession sid st m).activities = st.activities := by
  unfold captureSession
  split
  · rfl
  · rfl

/-- Dispatching one message body adds only thought or action notes. -/
theorem processMessageBody_mem (s1 : RunState) (body : AgentMessageBody)
    (a : ActivityContent)
    (ha : a ∈ (match body with
      | AgentMessageBody.assistant content => content.foldl processBlock s1
      | AgentMessageBody.user toolUseResult =>
        match toolUseResult, s1.lastToolUseId with
        | some tr, some _ =>
          let isError := jsTruthy tr.error
          let resultText := (jsOr tr.error (jsOr tr.output (some ""))).getD ""
          let s2 :=
            if resultText.isEmpty then s1
            else
              let preview := replaceNewlines (jsSliceTo 200 resultText)
              let resultSummary :=
                if isError then "Error: " ++ preview
                else if 150 < preview.length then jsSliceTo 150 preview ++ "..."
                else preview
              s1.emit ⟨"thought",
                some ((if isError then "❌ " else "✓ ") ++ resultSummary), none, none⟩
          { s2 with lastToolUseId := none }
        | _, _ => s1
      | AgentMessageBody.result subtype numTurns totalCostUsd =>
        let turnsOpt := if subtype == "success" then numTurns else some s1.turnCount
        let costOpt := if subtype == "success" then totalCostUsd else none
        match turnsOpt with
        | some t =>
          if 1 < t then
            s1.emit ⟨"thought",
              some (summaryBody t s1.toolsUsed s1.filesAccessed.length
                (if jsTruthy costOpt then costOpt else none)), none, none⟩
          else s1
        | none => s1
      | AgentMessageBody.other => s1).activities) :
    a ∈ s1.activities ∨ a.type = "thought" ∨ a.type = "action" := by
  cases body with
  | assistant content => exact foldl_processBlock_mem content s1 a ha
  | user toolUseResult =>
    rcases toolUseResult with _ | tr
    · exact Or.inl ha
    · rcases hlt : s1.lastToolUseId with _ | lt
      · rw [hlt] at ha
        exact Or.inl ha
      · rw [hlt] at ha
        simp only [RunState.emit] at ha
        split at ha
        · exact Or.inl ha
        · rcases List.mem_append.mp ha with h1 | h2
          · exact Or.inl h1
          · rw [List.mem_singleton] at h2
            subst h2
            exact Or.inr (Or.inl rfl)
  | result subtype numTurns totalCostUsd =>
    simp only [] at ha
    rcases hto : (if subtype == "success" then numTurns else some s1.turnCount)
      with _ | t
    · rw [hto] at ha
      exact Or.inl ha
    · rw [hto] at ha
      dsimp only [] at ha
      by_cases h1t : 1 < t
      · rw [if_pos h1t] at ha
        simp only [RunState.emit] at ha
        rcases List.mem_append.mp ha with h1 | h2
        · exact Or.inl h1
        · rw [List.mem_singleton] at h2
          subst h2
          exact Or.inr (Or.inl rfl)
      · rw [if_neg h1t] at ha
        exact Or.inl ha
  | other => exact Or.inl ha

/-- Every activity one streamed message adds is a thought or action note. -/
theorem processMessage_mem (sid : String) (st : RunState) (m : AgentMessage)
    (a : ActivityContent) (ha : a ∈ (processMessage sid st m).activities) :
    a ∈ st.activities ∨ a.type = "thought" ∨ a.type = "action" := by
  unfold processMessage at ha
  rcases processMessageBody_mem (captureSession sid st m) m.body a ha with h1 | h2
  · rw [captureSession_activities sid st m] at h1
    exact Or.inl h1
  · exact Or.inr h2

/-- Every activity the stream fold adds is a thought or action note. -/
theorem foldl_processMessage_mem (sid : String) (stream : List AgentMessage)
    (st : RunState) (a : ActivityContent)
    (ha : a ∈ (stream.foldl (processMessage sid) st).activities) :
    a ∈ st.activities ∨ a.type = "thought" ∨ a.type = "action" := by
  induction stream generalizing st with
  | nil => exact Or.inl ha
  | cons m rest ih =>
    rw [List.foldl_cons] at ha
    rcases ih (processMessage sid st m) ha with h1 | h2
    · exact processMessage_mem sid st m a h1
    · exact Or.inr h2

/-- The fallback final response is a fixed point of the sanitizer. -/
theorem sanitize_fallback : String.mk (sanitizeMentions fallbackResponse.data) =
    fallbackResponse := by
  decide

/-- Every activity the final emission adds is a response or elicitation
whose body is a sanitized string. -/
theorem finishRun_mem (ok : Bool) (st : RunState) (a : ActivityContent)
    (ha : a ∈ (finishRun ok st).activities) :
    a ∈ st.activities ∨
      ((a.type = "response" ∨ a.type = "elicitation") ∧
        ∃ t : List Char, a.body = some ⟨sanitizeMentions t⟩) := by
  unfold finishRun at ha
  by_cases hr : st.responseText.isEmpty
  · simp only [hr, Bool.not_true, Bool.false_eq_true, if_false, RunState.emit] at ha
    rcases List.mem_append.mp ha with h1 | h2
    · exact Or.inl h1
    · rw [List.mem_singleton] at h2
      subst h2
      refine Or.inr ⟨Or.inl rfl, fallbackResponse.data, ?_⟩
      rw [sanitize_fallback]
  · simp only [hr, Bool.not_false, if_true, RunState.emit] at ha
    have hterm : ∀ h2 :
        a = ⟨if (parseForClarification st.responseText.data).needsClarification then
              "elicitation" else "response",
            some ⟨sanitizeMentions
              ((parseForClarification st.responseText.data).cleanedText.take 2000)⟩,
            none, none⟩,
        (a.type = "response" ∨ a.type = "elicitation") ∧
          ∃ t : List Char, a.body = some ⟨sanitizeMentions t⟩ := by
      intro h2
      subst h2
      refine ⟨?_, (parseForClarification st.responseText.data).cleanedText.take 2000, rfl⟩
      by_cases hn : (parseForClarification st.responseText.data).needsClarification = true
      · rw [hn]
        exact Or.inr rfl
      · rw [Bool.not_eq_true] at hn
        rw [hn]
        exact Or.inl rfl
    by_cases hok : ok = true
    · simp only [hok, if_true] at ha
      rcases List.mem_append.mp ha with h1 | h2
      · exact Or.inl h1
      · rw [List.mem_singleton] at h2
        exact Or.inr (hterm h2)
    · rw [Bool.not_eq_true] at hok
      simp only [hok, Bool.false_eq_true, if_false, RunState.emit] at ha
      rcases List.mem_append.mp ha with h1 | h2
      · rcases List.mem_append.mp h1 with h3 | h4
        · exact Or.inl h3
        · rw [List.mem_singleton] at h4
          exact Or.inr (hterm h4)
      · rw [List.mem_singleton] at h2
        exact Or.inr (hterm h2)

/-- C3 counterexample: a long assistant text containing the mention token is
streamed back as a progress thought whose body still contains `@claude` —
intermediate thought notes are NOT sanitized before emission. -/
theorem sanitize_thought_cex :
    ((runAgentModel ⟨sessionA, none, none⟩ []
        [⟨none, .assistant [.text cexLongText]⟩] true).activities.get? 1).map
        (·.type) = some "thought" ∧
    containsAtClaude (((((runAgentModel ⟨sessionA, none, none⟩ []
        [⟨none, .assistant [.text cexLongText]⟩] true).activities.get? 1).bind
        (·.body)).getD "").data) = true := by
  decide

/-- C3 (amended): the terminal activities — final response, elicitation,
and error — always carry a body in the image of `sanitizeMentions`, on
every successful run and on every failed run; intermediate thought and
action notes are not sanitized (see the counterexample). -/
theorem sanitize_terminal_activities (inp : RunInput) (store0 : StoreMap)
    (stream : List AgentMessage) (firstEmitOk : Bool) (k : Nat) (errMsg : String) :
    (∀ a ∈ (runAgentModel inp store0 stream firstEmitOk).activities,
      a.type = "response" ∨ a.type = "elicitation" ∨ a.type = "error" →
      ∃ t : List Char, a.body = some ⟨sanitizeMentions t⟩) ∧
    (∀ a ∈ (runAgentFailedModel inp store0 stream k errMsg).activities,
      a.type = "response" ∨ a.type = "elicitation" ∨ a.type = "error" →
      ∃ t : List Char, a.body = some ⟨sanitizeMentions t⟩) := by
  have hnotes : ∀ a : ActivityContent,
      a.type = "response" ∨ a.type = "elicitation" ∨ a.type = "error" →
      a.type = "thought" ∨ a.type = "action" → False := by
    intro a hty hna
    rcases hty with h' | h' | h' <;> rcases hna with h'' | h'' <;>
      rw [h'] at h'' <;> simp at h''
  constructor
  · intro a ha hty
    unfold runAgentModel at ha
    cases hiss : inp.session.issue with
    | none =>
      rw [hiss] at ha
      simp at ha
    | some issue =>
      rw [hiss] at ha
      rcases finishRun_mem firstEmitOk _ a ha with h1 | h2
      · rcases foldl_processMessage_mem inp.session.id stream _ a h1 with h3 | h4
        · have hth : a.type = "thought" := by
            rw [List.mem_singleton.mp h3]
            rfl
          exact (hnotes a hty (Or.inl hth)).elim
        · exact (hnotes a hty h4).elim
      · exact h2.2
  · intro a ha hty
    unfold runAgentFailedModel at ha
    cases hiss : inp.session.issue with
    | none =>
      rw [hiss] at ha
      simp at ha
    | some issue =>
      rw [hiss] at ha
      simp only [RunState.emit, apply_ite RunState.activities, ite_self] at ha
      rcases List.mem_append.mp ha with h1 | h2
      · rcases foldl_processMessage_mem inp.session.id (stream.take k) _ a h1 with h3 | h4
        · have hth : a.type = "thought" := by
            rw [List.mem_singleton.mp h3]
            rfl
          exact (hnotes a hty (Or.inl hth)).elim
        · exact (hnotes a hty h4).elim
      · rw [List.mem_singleton] at h2
        subst h2
        exact ⟨("I encountered an error: " ++ errMsg).data, rfl⟩

/-- Witness for C3 (amended): the fallback final response of a run with an
empty stream is in the sanitizer's image, and so is the error activity of a
failed run. -/
theorem sanitize_terminal_activities_witness :
    (∃ t : List Char,
      (⟨"response", some fallbackResponse, none, none⟩ : ActivityContent).body =
        some ⟨sanitizeMentions t⟩) ∧
    (∃ t : List Char,
      (⟨"error", some ⟨sanitizeMentions ("I encountered an error: @claude".data)⟩,
        none, none⟩ : ActivityContent).body = some ⟨sanitizeMentions t⟩) :=
  ⟨(sanitize_terminal_activities ⟨sessionA, none, none⟩ [] [] true 0 "x").1
      ⟨"response", some fallbackResponse, none, none⟩ (by decide) (by decide),
   (sanitize_terminal_activities ⟨sessionA, none, none⟩ [] [] 0 0 "@claude").2
      ⟨"error", some ⟨sanitizeMentions ("I encountered an error: @claude".data)⟩,
        none, none⟩ (by decide) (by decide)⟩

/-! ## Sanitizer lemmas (C10) -/

/-- Fuel irrelevance for the first sanitizer pass. -/
theorem replClaudeAux_congr : ∀ (f₁ f₂ : Nat) (l : List Char),
    l.length ≤ f₁ → l.length ≤ f₂ → replClaudeAux f₁ l = replClaudeAux f₂ l := by
  intro f₁
  induction f₁ with
  | zero =>
    intro f₂ l h1 _
    have hl : l = [] := List.eq_nil_of_length_eq_zero (Nat.le_zero.mp h1)
    subst hl
    cases f₂ <;> rfl
  | succ f ih =>
    intro f₂ l h1 h2
    cases l with
    | nil => cases f₂ <;> rfl
    | cons c rest =>
      cases f₂ with
      | zero =>
        simp only [List.length_cons] at h2
        omega
      | succ g =>
        simp only [replClaudeAux]
        by_cases hm : atClaudeHead (c :: rest) = true
        · rw [if_pos hm, if_pos hm]
          have hlen : (rest.drop 6).length ≤ f := by
            simp only [List.length_cons] at h1
            simp only [List.length_drop]
            omega
          have hlen2 : (rest.drop 6).length ≤ g := by
            simp only [List.length_cons] at h2
            simp only [List.length_drop]
            omega
          exact congrArg (fun t => 'C' :: 'l' :: 'a' :: 'u' :: 'd' :: 'e' :: t)
            (ih g (rest.drop 6) hlen hlen2)
        · rw [if_neg hm, if_neg hm]
          have hlen : rest.length ≤ f := by
            simp only [List.length_cons] at h1
            omega
          have hlen2 : rest.length ≤ g := by
            simp only [List.length_cons] at h2
            omega
          exact congrArg (c :: ·) (ih g rest hlen hlen2)

/-- The JS left-to-right recurrence of `replace(/@claude/gi, "Claude")`. -/
theorem replClaude_cons (c : Char) (rest : List Char) :
    replClaude (c :: rest) =
      if atClaudeHead (c :: rest) then
        'C' :: 'l' :: 'a' :: 'u' :: 'd' :: 'e' :: replClaude (rest.drop 6)
      else c :: replClaude rest := by
  show replClaudeAux (c :: rest).length (c :: rest) = _
  simp only [List.length_cons, replClaudeAux]
  by_cases hm : atClaudeHead (c :: rest) = true
  · rw [if_pos hm, if_pos hm]
    refine congrArg (fun t => 'C' :: 'l' :: 'a' :: 'u' :: 'd' :: 'e' :: t) ?_
    exact replClaudeAux_congr rest.length (rest.drop 6).length (rest.drop 6)
      (by simp only [List.length_drop]; omega) le_rfl
  · rw [if_neg hm, if_neg hm]
    rfl

/-- Fuel irrelevance for the second sanitizer pass. -/
theorem stripAtWordAux_congr : ∀ (f₁ f₂ : Nat) (l : List Char),
    l.length ≤ f₁ → l.length ≤ f₂ → stripAtWordAux f₁ l = stripAtWordAux f₂ l := by
  intro f₁
  induction f₁ with
  | zero =>
    intro f₂ l h1 _
    have hl : l = [] := List.eq_nil_of_length_eq_zero (Nat.le_zero.mp h1)
    subst hl
    cases f₂ <;> rfl
  | succ f ih =>
    intro f₂ l h1 h2
    cases l with
    | nil => cases f₂ <;> rfl
    | cons c rest =>
      cases f₂ with
      | zero =>
        simp only [List.length_cons] at h2
        omega
      | succ g =>
        simp only [stripAtWordAux]
        have hdw := (List.dropWhile_suffix wordChar (l := rest)).length_le
        by_cases hm : (c == '@' && headWord rest) = true
        · rw [if_pos hm, if_pos hm]
          refine congrArg (rest.takeWhile wordChar ++ ·) ?_
          refine ih g (rest.dropWhile wordChar) ?_ ?_
          · simp only [List.length_cons] at h1
            omega
          · simp only [List.length_cons] at h2
            omega
        · rw [if_neg hm, if_neg hm]
          have hlen : rest.length ≤ f := by
            simp only [List.length_cons] at h1
            omega
          have hlen2 : rest.length ≤ g := by
            simp only [List.length_cons] at h2
            omega
          exact congrArg (c :: ·) (ih g rest hlen hlen2)

/-- The JS left-to-right recurrence of `replace(/@(\w+)/g, "$1")`. -/
theorem stripAtWord_cons (c : Char) (rest : List Char) :
    stripAtWord (c :: rest) =
      if c == '@' && headWord rest then
        rest.takeWhile wordChar ++ stripAtWord (rest.dropWhile wordChar)
      else c :: stripAtWord rest := by
  show stripAtWordAux (c :: rest).length (c :: rest) = _
  simp only [List.length_cons, stripAtWordAux]
  have hdw := (List.dropWhile_suffix wordChar (l := rest)).length_le
  by_cases hm : (c == '@' && headWord rest) = true
  · rw [if_pos hm, if_pos hm]
    refine congrArg (rest.takeWhile wordChar ++ ·) ?_
    exact stripAtWordAux_congr rest.length (rest.dropWhile wordChar).length
      (rest.dropWhile wordChar) (by omega) le_rfl
  · rw [if_neg hm, if_neg hm]
    rfl

/-- Prepending an `@`-free run does not change the `@`-word test. -/
theorem hasAtWord_append_no_at (w t : List Char) (hw : ∀ c ∈ w, ¬(c = '@')) :
    hasAtWord (w ++ t) = hasAtWord t := by
  induction w with
  | nil => rfl
  | cons c w' ih =>
    have hc : (c == '@') = false := by
      rw [beq_eq_false_iff_ne]
      exact hw c (List.mem_cons_self c w')
    simp only [List.cons_append, hasAtWord, hc, Bool.false_and, Bool.false_or]
    exact ih fun c' hc' => hw c' (List.mem_cons_of_mem c hc')

/-- A non-`@` head does not create an adjacent-`@` pair. -/
theorem hasAdjAt_cons_ne (c : Char) (t : List Char) (hc : (c == '@') = false) :
    hasAdjAt (c :: t) = hasAdjAt t := by
  simp [hasAdjAt, hc]

/-- Adjacent-`@`-freeness passes to the tail. -/
theorem hasAdjAt_cons_false (c : Char) (rest : List Char)
    (h : hasAdjAt (c :: rest) = false) : hasAdjAt rest = false := by
  simp only [hasAdjAt, Bool.or_eq_false_iff] at h
  exact h.2

/-- In an adjacent-`@`-free list, `@` is never followed by `@`. -/
theorem headAt_false_of_hasAdjAt (rest : List Char)
    (h : hasAdjAt ('@' :: rest) = false) : headAt rest = false := by
  simp only [hasAdjAt, Bool.or_eq_false_iff, Bool.and_eq_false_iff] at h
  rcases h.1 with h1 | h1
  · simp at h1
  · exact h1

/-- Adjacent-`@`-freeness is preserved by `drop`. -/
theorem hasAdjAt_drop (n : Nat) (l : List Char) (h : hasAdjAt l = false) :
    hasAdjAt (l.drop n) = false := by
  induction n generalizing l with
  | zero => exact h
  | succ n ih =>
    cases l with
    | nil => exact h
    | cons c rest => exact ih rest (hasAdjAt_cons_false c rest h)

/-- Adjacent-`@`-freeness is preserved by `dropWhile`. -/
theorem hasAdjAt_dropWhile (p : Char → Bool) (l : List Char) (h : hasAdjAt l = false) :
    hasAdjAt (l.dropWhile p) = false := by
  induction l with
  | nil => exact h
  | cons c rest ih =>
    rcases hpc : p c with _ | _
    · simpa [List.dropWhile_cons, hpc] using h
    · simp only [List.dropWhile_cons, hpc, if_true]
      exact ih (hasAdjAt_cons_false c rest h)

/-- Stripping a non-`@`, non-word head keeps the head visible. -/
theorem headWord_stripAtWord (rest : List Char) (hAt : headAt rest = false)
    (hW : headWord rest = false) : headWord (stripAtWord rest) = false := by
  cases rest with
  | nil => rfl
  | cons d tl =>
    have hd : (d == '@') = false := by
      simpa [headAt] using hAt
    rw [stripAtWord_cons, hd]
    simp only [Bool.false_and, Bool.false_eq_true, if_false]
    simpa [headWord] using hW

/-- Core of C10: on an adjacent-`@`-free input, the `@`-stripping pass
leaves no `@` followed by a word character. -/
theorem stripAtWord_no_atWord : ∀ (n : Nat) (l : List Char), l.length ≤ n →
    hasAdjAt l = false → hasAtWord (stripAtWord l) = false := by
  intro n
  induction n with
  | zero =>
    intro l h1 _
    have hl : l = [] := List.eq_nil_of_length_eq_zero (Nat.le_zero.mp h1)
    subst hl
    rfl
  | succ n ih =>
    intro l hlen hadj
    cases l with
    | nil => rfl
    | cons c rest =>
      rw [stripAtWord_cons]
      have hdw := (List.dropWhile_suffix wordChar (l := rest)).length_le
      simp only [List.length_cons] at hlen
      by_cases hm : (c == '@' && headWord rest) = true
      · rw [if_pos hm]
        have hw : ∀ x ∈ rest.takeWhile wordChar, ¬(x = '@') := by
          intro x hx hxa
          have hword := List.mem_takeWhile_imp hx
          rw [hxa] at hword
          exact absurd hword (by decide)
        rw [hasAtWord_append_no_at _ _ hw]
        exact ih (rest.dropWhile wordChar) (by omega)
          (hasAdjAt_dropWhile wordChar rest (hasAdjAt_cons_false c rest hadj))
      · rw [if_neg hm]
        have hrest : hasAtWord (stripAtWord rest) = false :=
          ih rest (by omega) (hasAdjAt_cons_false c rest hadj)
        simp only [hasAtWord, Bool.or_eq_false_iff]
        refine ⟨?_, hrest⟩
        by_cases hc : (c == '@') = true
        · have hcq : c = '@' := by
            simpa using hc
          subst hcq
          rw [Bool.not_eq_true] at hm
          have hW : headWord rest = false := by
            rcases Bool.and_eq_false_iff.mp hm with h1 | h1
            · simp at h1
            · exact h1
          have hA : headAt rest = false := headAt_false_of_hasAdjAt rest hadj
          rw [headWord_stripAtWord rest hA hW]
          simp
        · rw [Bool.not_eq_true] at hc
          simp [hc]

/-- The first pass never exposes an `@` at the head that was not there. -/
theorem replClaude_headAt (t : List Char) (h : headAt (replClaude t) = true) :
    headAt t = true := by
  cases t with
  | nil => exact h
  | cons c rest =>
    rw [replClaude_cons] at h
    by_cases hm : atClaudeHead (c :: rest) = true
    · rw [if_pos hm] at h
      simp [headAt] at h
    · rw [if_neg hm] at h
      simpa [headAt] using h

/-- The first pass preserves adjacent-`@`-freeness. -/
theorem replClaude_no_adjAt : ∀ (n : Nat) (l : List Char), l.length ≤ n →
    hasAdjAt l = false → hasAdjAt (replClaude l) = false := by
  intro n
  induction n with
  | zero =>
    intro l h1 _
    have hl : l = [] := List.eq_nil_of_length_eq_zero (Nat.le_zero.mp h1)
    subst hl
    rfl
  | succ n ih =>
    intro l hlen hadj
    cases l with
    | nil => rfl
    | cons c rest =>
      rw [replClaude_cons]
      simp only [List.length_cons] at hlen
      by_cases hm : atClaudeHead (c :: rest) = true
      · rw [if_pos hm]
        rw [hasAdjAt_cons_ne 'C' _ (by decide), hasAdjAt_cons_ne 'l' _ (by decide),
          hasAdjAt_cons_ne 'a' _ (by decide), hasAdjAt_cons_ne 'u' _ (by decide),
          hasAdjAt_cons_ne 'd' _ (by decide), hasAdjAt_cons_ne 'e' _ (by decide)]
        refine ih (rest.drop 6) ?_ ?_
        · simp only [List.length_drop]
          omega
        · exact hasAdjAt_drop 6 rest (hasAdjAt_cons_false c rest hadj)
      · rw [if_neg hm]
        simp only [hasAdjAt, Bool.or_eq_false_iff]
        refine ⟨?_, ih rest (by omega) (hasAdjAt_cons_false c rest hadj)⟩
        by_cases hc : (c == '@') = true
        · have hcq : c = '@' := by
            simpa using hc
          subst hcq
          have hA : headAt rest = false := headAt_false_of_hasAdjAt rest hadj
          rcases hAr : headAt (replClaude rest) with _ | _
          · simp
          · rw [replClaude_headAt rest hAr] at hA
            simp at hA
        · rw [Bool.not_eq_true] at hc
          simp [hc]

/-- A character whose lowercase form is `c` is a word character. -/
theorem wordChar_of_toLower_c (d : Char) (h : d.toLower = 'c') : wordChar d = true := by
  unfold wordChar
  unfold Char.toLower at h
  simp only [] at h
  by_cases hup : d.toNat ≥ 65 ∧ d.toNat ≤ 90
  · simp only [Char.isAlphanum, Char.isAlpha, Char.isUpper, Bool.or_eq_true, Bool.and_eq_true,
      decide_eq_true_eq]
    refine Or.inl (Or.inl (Or.inl ⟨?_, ?_⟩))
    · exact UInt32.le_def.mpr (by simpa [Char.toNat, UInt32.toNat] using hup.1)
    · exact UInt32.le_def.mpr (by simpa [Char.toNat, UInt32.toNat] using hup.2)
  · simp only [if_neg hup] at h
    subst h
    decide

/-- A `@claude` occurrence starts with `@` followed by a word character. -/
theorem atClaudeHead_imp_hasAtWord (t : List Char) (h : atClaudeHead t = true) :
    hasAtWord t = true := by
  cases t with
  | nil => exact h
  | cons c rest =>
    simp only [atClaudeHead, Bool.and_eq_true, beq_iff_eq] at h
    obtain ⟨hc, hmap⟩ := h
    subst hc
    cases rest with
    | nil => simp [claudeChars] at hmap
    | cons d tl =>
      rw [List.take_succ_cons, List.map_cons] at hmap
      have hd : d.toLower = 'c' := by
        have := congrArg (fun l => l.headD 'x') hmap
        simpa [claudeChars] using this
      simp [hasAtWord, headWord, wordChar_of_toLower_c d hd]

/-- Containing `@claude` implies containing `@`-plus-word-character. -/
theorem hasAtWord_of_containsAtClaude : ∀ t : List Char, containsAtClaude t = true →
    hasAtWord t = true := by
  intro t
  induction t with
  | nil => exact fun h => h
  | cons c rest ih =>
    intro h
    simp only [containsAtClaude, Bool.or_eq_true] at h
    rcases h with h1 | h2
    · exact atClaudeHead_imp_hasAtWord _ h1
    · simp only [hasAtWord, Bool.or_eq_true]
      exact Or.inr (ih h2)

/-- C10 counterexample: `sanitizeMentions` does not eliminate every mention
shape — stripping an `@`-word can splice characters so that an `@` followed
by a word character, and even a fresh `@claude`, appears in the output
(`"@@abc" ↦ "@abc"`, `"@@cla@ude" ↦ "@claude"`). -/
theorem sanitizeMentions_cex :
    sanitizeMentions ("@@cla@ude".data) = "@claude".data ∧
    hasAtWord (sanitizeMentions ("@@abc".data)) = true ∧
    containsAtClaude (sanitizeMentions ("@@cla@ude".data)) = true := by
  decide

/-- C10 (amended): on every input without two adjacent `@` characters,
`sanitizeMentions` leaves no `@` immediately followed by a word character,
and in particular no case-insensitive `@claude` occurrence survives. -/
theorem sanitizeMentions_amended (s : List Char) (h : hasAdjAt s = false) :
    hasAtWord (sanitizeMentions s) = false ∧
    containsAtClaude (sanitizeMentions s) = false := by
  have h1 : hasAdjAt (replClaude s) = false := replClaude_no_adjAt s.length s le_rfl h
  have h2 : hasAtWord (stripAtWord (replClaude s)) = false :=
    stripAtWord_no_atWord (replClaude s).length (replClaude s) le_rfl h1
  refine ⟨h2, ?_⟩
  rcases hc : containsAtClaude (sanitizeMentions s) with _ | _
  · rfl
  · have := hasAtWord_of_containsAtClaude _ hc
    unfold sanitizeMentions at this
    rw [this] at h2
    exact h2

/-- Witness for C10 (amended) at a concrete mention-bearing input. -/
theorem sanitizeMentions_amended_witness :
    hasAdjAt ("Hi @claude, ping @bob".data) = false ∧
    hasAtWord (sanitizeMentions ("Hi @claude, ping @bob".data)) = false ∧
    containsAtClaude (sanitizeMentions ("Hi @claude, ping @bob".data)) = false :=
  ⟨by decide, (sanitizeMentions_amended _ (by decide)).1,
   (sanitizeMentions_amended _ (by decide)).2⟩

end LinearBeads
